import Mathlib

/-!
Verification development for the federated journal query engine
(`implementations/models.py`, `implementations/query_handlers.py`,
`implementations/query_engines.py`).

The Python code is shallowly embedded: pandas DataFrame rows become
records of `Option String` fields (a `none` field models an absent
column or a NaN/None cell), Python dicts that preserve insertion order
become association lists, and the two stores (a SPARQL journal store
and a SQLite classification store) are modelled by tables of rows over
which the handler methods' queries are evaluated.
-/

namespace DatScience

/-! ## Value helpers (`BasicQueryEngine._has_value`, `_to_bool`, `str.strip`) -/

/-- Python `str.strip()`: drop leading and trailing whitespace
(implemented over the character list so that it evaluates by kernel
reduction). -/
def pyStrip (s : String) : String :=
  ⟨((s.data.dropWhile Char.isWhitespace).reverse.dropWhile Char.isWhitespace).reverse⟩

/-- `BasicQueryEngine._has_value`: a value is meaningful unless it is
absent (`none`, covering Python `None`/NaN/missing column) or a
blank-after-strip string. -/
def hasValue : Option String → Bool
  | none => false
  | some s => !(pyStrip s == "")

/-- Python `str(value).strip()` applied to an optional cell (callers only
use it on cells that passed `hasValue`). -/
def strip (v : Option String) : String := pyStrip (v.getD "")

/-- `BasicQueryEngine._to_bool` on the string values the SPARQL transport
delivers: `value.strip().lower() in {'1', 'true', 'yes'}`. -/
def toBool (v : Option String) : Bool :=
  let s := (pyStrip (v.getD "")).toLower
  s = "1" || s = "true" || s = "yes"

/-- Code-point lexicographic comparison of character lists (the order
Python `sorted` and the stores' `ORDER BY` use on strings), implemented
so that it evaluates by kernel reduction. -/
def charListLe : List Char → List Char → Bool
  | [], _ => true
  | _ :: _, [] => false
  | a :: as, b :: bs =>
      if a.toNat < b.toNat then true
      else if b.toNat < a.toNat then false
      else charListLe as bs

/-- Code-point lexicographic order on strings. -/
def strLeB (a b : String) : Bool := charListLe a.data b.data

theorem charListLe_total : ∀ as bs : List Char,
    charListLe as bs = true ∨ charListLe bs as = true := by
  intro as
  induction as with
  | nil => intro bs; left; rfl
  | cons a as ih =>
      intro bs
      cases bs with
      | nil => right; rfl
      | cons b bs =>
          unfold charListLe
          by_cases h1 : a.toNat < b.toNat
          · left; rw [if_pos h1]
          · by_cases h2 : b.toNat < a.toNat
            · right; rw [if_pos h2]
            · rcases ih bs with h | h
              · left; rw [if_neg h1, if_neg h2]; exact h
              · right; rw [if_neg h2, if_neg h1]; exact h

theorem charListLe_trans : ∀ as bs cs : List Char,
    charListLe as bs = true → charListLe bs cs = true → charListLe as cs = true := by
  intro as
  induction as with
  | nil => intro bs cs _ _; rfl
  | cons a as ih =>
      intro bs cs hab hbc
      cases bs with
      | nil => simp [charListLe] at hab
      | cons b bs =>
          cases cs with
          | nil => simp [charListLe] at hbc
          | cons c cs =>
              unfold charListLe at hab hbc ⊢
              have hBA : ¬(b.toNat < a.toNat) := by
                intro h
                rw [if_neg (by omega), if_pos h] at hab
                exact Bool.false_ne_true hab
              have hCB : ¬(c.toNat < b.toNat) := by
                intro h
                rw [if_neg (by omega), if_pos h] at hbc
                exact Bool.false_ne_true hbc
              by_cases hAC : a.toNat < c.toNat
              · rw [if_pos hAC]
              · have hABeq : a.toNat = b.toNat := by omega
                have hBCeq : b.toNat = c.toNat := by omega
                rw [if_neg hAC, if_neg (by omega)]
                rw [if_neg (by omega), if_neg hBA] at hab
                rw [if_neg (by omega), if_neg hCB] at hbc
                exact ih bs cs hab hbc

/-! ## Data model (`implementations/models.py`) -/

/-- `IdentifiableEntity.addId`: append the identifier unless it is empty
(Python falsy) or already present. -/
def addId (ids : List String) (entityId : String) : List String :=
  if entityId ≠ "" ∧ entityId ∉ ids then ids ++ [entityId] else ids

/-- `IdentifiableEntity.setId`: replace the whole identifier list with at
most one identifier (`[entity_id] if entity_id else []`). -/
def setId (entityId : String) : List String :=
  if entityId ≠ "" then [entityId] else []

/-- One mutator call on an entity's identifier list. -/
inductive IdOp where
  | add (s : String)
  | set (s : String)

/-- Apply a sequence of `addId`/`setId` calls to an identifier list. -/
def applyIdOps (ids : List String) : List IdOp → List String
  | [] => ids
  | .add s :: ops => applyIdOps (addId ids s) ops
  | .set s :: ops => applyIdOps (setId s) ops

/-- The identifier-list invariant: no empty string, no duplicate. -/
def idsInv (ids : List String) : Prop := "" ∉ ids ∧ ids.Nodup

/-- `Journal` as built and merged by the engine (`models.Journal`; the
categories/areas lists are never touched by the merge code and are
modelled separately for the accessor-copy claim). -/
structure Journal where
  ids : List String
  title : String
  languages : List String
  publisher : Option String
  sealFlag : Bool
  licence : String
  apc : Bool
deriving DecidableEq

/-- `Category` as built by `_dataframe_to_category`. -/
structure Cat where
  ids : List String
  quartile : Option String
deriving DecidableEq

/-! ## Handler registration (`BasicQueryEngine.__init__`, `add*Handler`,
`clean*Handlers`).  Handler instances are identified by reference; we
model references as naturals.  A live Python handler object is always
truthy, so the `if handler` guard is the identity on registered
instances. -/

/-- The engine's registration state: `_journalQuery` and `_categoryQuery`. -/
structure EngineState where
  journalQuery : List Nat
  categoryQuery : List Nat
deriving DecidableEq

/-- `BasicQueryEngine.addJournalHandler` (returns the new state and the
reported `bool`, which is `True` on the normal path). -/
def addJournalHandler (s : EngineState) (h : Nat) : EngineState × Bool :=
  (⟨if h ∈ s.journalQuery then s.journalQuery else s.journalQuery ++ [h],
    s.categoryQuery⟩, true)

/-- `BasicQueryEngine.addCategoryHandler`. -/
def addCategoryHandler (s : EngineState) (h : Nat) : EngineState × Bool :=
  (⟨s.journalQuery,
    if h ∈ s.categoryQuery then s.categoryQuery else s.categoryQuery ++ [h]⟩, true)

/-- `BasicQueryEngine.cleanJournalHandlers`. -/
def cleanJournalHandlers (s : EngineState) : EngineState × Bool :=
  (⟨[], s.categoryQuery⟩, true)

/-- `BasicQueryEngine.cleanCategoryHandlers`. -/
def cleanCategoryHandlers (s : EngineState) : EngineState × Bool :=
  (⟨s.journalQuery, []⟩, true)

/-! ## Journal rows and the merge algorithm
(`query_engines.py`, `_get_journal_key` / `_update_journal_from_row` /
`_dataframe_to_journal` / `_collect_journals`).

A `Row` is one binding row of the SPARQL result table
`SELECT ?journal ?title ?issn ?eissn ?language ?publisher ?seal ?licence ?apc`;
`none` models an unbound cell (absent column or NaN). -/

structure Row where
  journal : Option String
  title : Option String
  issn : Option String
  eissn : Option String
  language : Option String
  publisher : Option String
  sealCol : Option String
  licence : Option String
  apc : Option String
deriving DecidableEq

/-- `BasicQueryEngine._get_journal_key`: first meaningful value among the
columns `('issn', 'eissn', 'journal')`, stripped; otherwise the synthetic
key `__row_{idx}` built from the row's index inside its own DataFrame. -/
def getJournalKey (r : Row) (idx : Nat) : String :=
  if hasValue r.issn then strip r.issn
  else if hasValue r.eissn then strip r.eissn
  else if hasValue r.journal then strip r.journal
  else "__row_" ++ toString idx

/-- `BasicQueryEngine._dataframe_to_journal`: convert one row into a fresh
`Journal` (the conversion body never raises on string-valued rows). -/
def dataframeToJournal (r : Row) : Journal :=
  let issn := if hasValue r.issn then r.issn else r.eissn
  { ids := if hasValue issn then setId (strip issn) else []
    title := if hasValue r.title then strip r.title else ""
    languages := if hasValue r.language then [strip r.language] else []
    publisher := if hasValue r.publisher then some (strip r.publisher) else none
    sealFlag := if hasValue r.sealCol then toBool r.sealCol else false
    licence := if hasValue r.licence then strip r.licence else ""
    apc := if hasValue r.apc then toBool r.apc else false }

/-- `BasicQueryEngine._update_journal_from_row`: merge a repeated row into
the journal already stored under the same key.  Scalar fields are filled
only while Python-falsy (empty / `None`), the language list appends unseen
values, and the two booleans are overwritten whenever the row has a
meaningful value. -/
def updateJournalFromRow (j : Journal) (r : Row) : Journal :=
  let j := if hasValue r.title ∧ j.title = "" then { j with title := strip r.title } else j
  let j :=
    if hasValue r.language ∧ strip r.language ∉ j.languages then
      { j with languages := j.languages ++ [strip r.language] }
    else j
  let j :=
    if hasValue r.publisher ∧ (j.publisher = none ∨ j.publisher = some "") then
      { j with publisher := some (strip r.publisher) }
    else j
  let j := if hasValue r.sealCol then { j with sealFlag := toBool r.sealCol } else j
  let j := if hasValue r.licence ∧ j.licence = "" then { j with licence := strip r.licence } else j
  let j := if hasValue r.apc then { j with apc := toBool r.apc } else j
  j

/-- The engine's journal merge map: a Python dict keyed by the stable
identity, i.e. an insertion-ordered association list. -/
abbrev JMap := List (String × Journal)

/-- Dict lookup (`key in target` / `target[key]`). -/
def lookupJ (m : JMap) (k : String) : Option Journal :=
  (m.find? (fun p => p.1 = k)).map (fun p => p.2)

/-- In-place value update of an existing dict key. -/
def updateJ (m : JMap) (k : String) (r : Row) : JMap :=
  m.map (fun p => if p.1 = k then (p.1, updateJournalFromRow p.2 r) else p)

/-- One iteration of the `df.iterrows()` loop in `_collect_journals`. -/
def collectRow (m : JMap) (idx : Nat) (r : Row) : JMap :=
  let k := getJournalKey r idx
  if k = "" then m
  else if (lookupJ m k).isSome then updateJ m k r
  else m ++ [(k, dataframeToJournal r)]

/-- `BasicQueryEngine._collect_journals`: fold every row of one DataFrame
(rows carry their in-frame index, restarting from 0 per frame) into the
shared merge map. -/
def collectJournals (df : List Row) (m : JMap) : JMap :=
  (df.enum).foldl (fun m p => collectRow m p.1 p.2) m

/-! ## Journal store handler (`query_handlers.JournalQueryHandler`)

A handler's Blazegraph store is modelled by the binding table its
`SELECT` queries range over: one `Row` per solution of the common
pattern `?journal rdf:type doaj:Journal` with all `OPTIONAL` columns.
Queries become filters over that table; `ORDER BY ?title` becomes a
stable insertion sort on the title column (SPARQL orders an unbound
variable before any bound value). -/

/-- SPARQL `ORDER BY ?title` comparison: unbound (`none`) first, then
code-point order on the strings. -/
def titleLe (a b : Option String) : Bool :=
  match a, b with
  | none, _ => true
  | some _, none => false
  | some x, some y => strLeB x y

/-- The `Prop`-valued ordering used for sorting rows by title. -/
def rowLe (a b : Row) : Prop := titleLe a.title b.title = true

instance : DecidableRel rowLe := fun _ _ => instDecidableEqBool _ _

/-- `ORDER BY ?title` over a result table (stable sort). -/
def sortByTitle (rs : List Row) : List Row := rs.insertionSort rowLe

/-- `JournalQueryHandler.getAllJournals`: every row with a bound title
(the pattern `?journal doaj:title ?title .` is not optional), by title. -/
def getAllJournalsH (tbl : List Row) : List Row :=
  sortByTitle (tbl.filter (fun r => r.title.isSome))

/-- `JournalQueryHandler.getById`: rows whose issn or eissn equals the
identifier (`FILTER (?issn = id || ?eissn = id)`; an unbound operand
makes that disjunct false).  No title requirement, no ordering. -/
def getByIdH (tbl : List Row) (entityId : String) : List Row :=
  tbl.filter (fun r => r.issn = some entityId || r.eissn = some entityId)

/-- `JournalQueryHandler.getByIds`: empty input returns an empty
DataFrame before any query is built; otherwise falsy ids are dropped
(returning empty again if none survive) and the query matches rows whose
issn or eissn is one of the wanted values. -/
def getByIdsH (tbl : List Row) (ids : List String) : List Row :=
  if ids.isEmpty then []
  else
    let vals := ids.filter (fun i => i ≠ "")
    if vals.isEmpty then []
    else tbl.filter (fun r =>
      vals.any (fun w => r.issn = some w || r.eissn = some w))

/-- `JournalQueryHandler.getJournalsWithLicense`: an empty licence set
falls back to `getAllJournals`; otherwise falsy licences are dropped
(empty DataFrame if none survive) and rows need a bound title and a
licence equal to one of the requested values, ordered by title. -/
def getJournalsWithLicenseH (tbl : List Row) (licenses : List String) : List Row :=
  if licenses.isEmpty then getAllJournalsH tbl
  else
    let esc := licenses.filter (fun l => l ≠ "")
    if esc.isEmpty then []
    else sortByTitle (tbl.filter (fun r =>
      r.title.isSome && esc.any (fun l => r.licence = some l)))

/-- `COALESCE(?issn, ?eissn)` in `getJournalsByIssns`. -/
def anyId (r : Row) : Option String := r.issn.orElse (fun _ => r.eissn)

/-- `JournalQueryHandler.getJournalsByIssns`: falsy identifiers are
removed as a set; if nothing survives the method returns an empty
DataFrame, otherwise the query keeps title-bound rows whose
`COALESCE(?issn, ?eissn)` is among the wanted values, ordered by title. -/
def getJournalsByIssnsH (tbl : List Row) (issns : List String) : List Row :=
  let cleaned := (issns.filter (fun i => i ≠ "")).dedup
  if cleaned.isEmpty then []
  else sortByTitle (tbl.filter (fun r =>
    r.title.isSome && cleaned.any (fun w => anyId r = some w)))

/-! ## Classification store handler (`query_handlers.CategoryQueryHandler`)

The SQLite database is modelled by its four tables.  Cells are
`Option String` (`none` = SQL NULL).  `SELECT DISTINCT` becomes `dedup`;
`ORDER BY id` becomes a stable insertion sort with NULLs first (SQLite
ascending NULL order); SQL `IN` never matches a NULL. -/

/-- One row of the `categories` table (`id`, `quartile`). -/
structure CatRow where
  id : Option String
  quartile : Option String
deriving DecidableEq

/-- The relational store behind one `CategoryQueryHandler`. -/
structure ClassDB where
  categories : List CatRow
  areas : List (Option String)
  journalCategories : List (Option String × Option String)
  journalAreas : List (Option String × Option String)
deriving DecidableEq

/-- `ORDER BY id` comparison on optional ids (NULLs first). -/
def optLe (a b : Option String) : Bool :=
  match a, b with
  | none, _ => true
  | some _, none => false
  | some x, some y => strLeB x y

/-- The `Prop`-valued ordering on category rows. -/
def catRowLe (a b : CatRow) : Prop := optLe a.id b.id = true

instance : DecidableRel catRowLe := fun _ _ => instDecidableEqBool _ _

/-- `SELECT DISTINCT id, quartile FROM categories ORDER BY id`. -/
def distinctSortedCats (rows : List CatRow) : List CatRow :=
  rows.dedup.insertionSort catRowLe

/-- `CategoryQueryHandler.getAllCategories`. -/
def getAllCategoriesH (db : ClassDB) : List CatRow :=
  distinctSortedCats db.categories

/-- `CategoryQueryHandler.getCategoriesWithQuartile`: empty set means all
categories, otherwise `WHERE quartile IN (...)` (NULL quartiles never
match). -/
def getCategoriesWithQuartileH (db : ClassDB) (quartiles : List String) : List CatRow :=
  if quartiles.isEmpty then distinctSortedCats db.categories
  else distinctSortedCats (db.categories.filter (fun c =>
    match c.quartile with
    | some q => quartiles.contains q
    | none => false))

/-- The `Prop`-valued ordering on area ids. -/
def areaRowLe (a b : Option String) : Prop := optLe a b = true

instance : DecidableRel areaRowLe := fun _ _ => instDecidableEqBool _ _

/-- `SELECT DISTINCT id FROM areas ORDER BY id`
(`CategoryQueryHandler.getAllAreas`). -/
def getAllAreasH (db : ClassDB) : List (Option String) :=
  db.areas.dedup.insertionSort areaRowLe

/-- `CategoryQueryHandler.getCategoriesAssignedToAreas`: empty set means
all categories; otherwise categories joined to any of the given areas
through `journal_categories` and `journal_areas` (the join equates the
two issn columns; SQL `=` is false on NULL). -/
def getCategoriesAssignedToAreasH (db : ClassDB) (areaIds : List String) : List CatRow :=
  if areaIds.isEmpty then distinctSortedCats db.categories
  else distinctSortedCats (db.categories.filter (fun c =>
    db.journalCategories.any (fun jc =>
      jc.2 = c.id && c.id.isSome &&
      db.journalAreas.any (fun ja =>
        ja.1 = jc.1 && jc.1.isSome &&
        (match ja.2 with
         | some a => areaIds.contains a
         | none => false)))))

/-- `CategoryQueryHandler.getAreasAssignedToCategories`: empty set means
all areas; otherwise the symmetric join. -/
def getAreasAssignedToCategoriesH (db : ClassDB) (categoryIds : List String) : List (Option String) :=
  if categoryIds.isEmpty then db.areas.dedup.insertionSort areaRowLe
  else (db.areas.filter (fun a =>
    db.journalAreas.any (fun ja =>
      ja.2 = a && a.isSome &&
      db.journalCategories.any (fun jc =>
        jc.1 = ja.1 && ja.1.isSome &&
        (match jc.2 with
         | some c => categoryIds.contains c
         | none => false))))).dedup.insertionSort areaRowLe

/-- `FullQueryEngine._get_issns_for_category`:
`SELECT DISTINCT issn FROM journal_categories WHERE category_id = ?`
(result is a Python set used only through membership). -/
def issnsForCategory (db : ClassDB) (categoryId : String) : List (Option String) :=
  ((db.journalCategories.filter (fun jc => jc.2 = some categoryId)).map
    (fun jc => jc.1)).dedup

/-- `FullQueryEngine._get_issns_for_area`:
`SELECT DISTINCT issn FROM journal_areas WHERE area_id = ?`. -/
def issnsForArea (db : ClassDB) (areaId : String) : List (Option String) :=
  ((db.journalAreas.filter (fun ja => ja.2 = some areaId)).map
    (fun ja => ja.1)).dedup

/-! ## Engine-level conversion and collection for categories / areas -/

/-- `Area` as built by `_dataframe_to_area`. -/
structure AreaE where
  ids : List String
deriving DecidableEq

/-- `BasicQueryEngine._dataframe_to_category`. -/
def dataframeToCategory (r : CatRow) : Cat :=
  { ids := setId (if hasValue r.id then strip r.id else "")
    quartile := if hasValue r.quartile then some (strip r.quartile) else none }

/-- `BasicQueryEngine._dataframe_to_area`. -/
def dataframeToArea (a : Option String) : AreaE :=
  { ids := setId (if hasValue a then strip a else "") }

/-- Python truthiness of `category.getQuartile()` (`None` and `""` are
falsy). -/
def quartTruthy : Option String → Bool
  | none => false
  | some s => !s.isEmpty

/-- The category merge map. -/
abbrev CMap := List (String × Cat)

/-- Dict lookup for the category map. -/
def lookupC (m : CMap) (k : String) : Option Cat :=
  (m.find? (fun p => p.1 = k)).map (fun p => p.2)

/-- One iteration of `_collect_categories`: key is the sole identifier if
present, else `__row_{idx}`; on a repeat key the quartile is filled only
while falsy. -/
def collectCatRow (m : CMap) (idx : Nat) (row : CatRow) : CMap :=
  let c := dataframeToCategory row
  let k := match c.ids.head? with
    | some i => i
    | none => "__row_" ++ toString idx
  match lookupC m k with
  | some _ =>
      m.map (fun p =>
        if p.1 = k ∧ ¬quartTruthy p.2.quartile ∧ quartTruthy c.quartile then
          (p.1, { p.2 with quartile := c.quartile })
        else p)
  | none => m ++ [(k, c)]

/-- `BasicQueryEngine._collect_categories` over one DataFrame. -/
def collectCategories (df : List CatRow) (m : CMap) : CMap :=
  (df.enum).foldl (fun m p => collectCatRow m p.1 p.2) m

/-- `BasicQueryEngine.getCategoriesWithQuartile`: fan out to every
classification handler and merge. -/
def engineCatsWithQuartile (chs : List ClassDB) (quartiles : List String) : List Cat :=
  (chs.foldl (fun m db => collectCategories (getCategoriesWithQuartileH db quartiles) m) []).map
    (fun p => p.2)

/-! ## Engine-level journal queries -/

/-- `BasicQueryEngine.getAllJournals` on the happy path: fan out to every
journal handler, merge every returned row, return the map's values. -/
def engineGetAllJournals (jhs : List (List Row)) : List Journal :=
  (jhs.foldl (fun m tbl => collectJournals (getAllJournalsH tbl) m) []).map (fun p => p.2)

/-- `BasicQueryEngine.getAllJournals` with failure modelled: each handler
call either yields a table (`some`) or raises (`none`).  The `try` block
wraps the whole fan-out loop, so the first raising handler aborts to the
`except` branch, which logs and returns the empty list — discarding the
merge map accumulated so far. -/
def getAllJournalsExcGo (m : JMap) : List (Option (List Row)) → List Journal
  | [] => m.map (fun p => p.2)
  | none :: _ => []
  | some tbl :: rest => getAllJournalsExcGo (collectJournals (getAllJournalsH tbl) m) rest

/-- `BasicQueryEngine.getAllJournals` over possibly-raising handlers. -/
def getAllJournalsExc (hs : List (Option (List Row))) : List Journal :=
  getAllJournalsExcGo [] hs

/-! ## `BasicQueryEngine.getEntityById` -/

/-- The three entity kinds a lookup can produce. -/
inductive Entity where
  | journal (j : Journal)
  | category (c : Cat)
  | area (a : AreaE)
deriving DecidableEq

/-- `CategoryQueryHandler.getById`: try the `categories` table, fall back
to the `areas` table.  The left summand is a DataFrame that carries a
`quartile` column, the right one does not. -/
def getClassByIdH (db : ClassDB) (entityId : String) : List CatRow ⊕ List (Option String) :=
  let c := db.categories.filter (fun r => r.id = some entityId)
  if c.isEmpty then .inr (db.areas.filter (fun a => a = some entityId)) else .inl c

/-- The journal phase of `getEntityById`: first handler with a non-empty
DataFrame wins, its row 0 is converted. -/
def probeJournals (entityId : String) : List (List Row) → Option Journal
  | [] => none
  | tbl :: rest =>
      match (getByIdH tbl entityId).head? with
      | some r => some (dataframeToJournal r)
      | none => probeJournals entityId rest

/-- The classification phase of `getEntityById`: first handler with a
non-empty DataFrame wins; a row 0 with a `quartile` column becomes a
Category, otherwise an Area. -/
def probeClass (entityId : String) : List ClassDB → Option Entity
  | [] => none
  | db :: rest =>
      match getClassByIdH db entityId with
      | .inl cats =>
          match cats.head? with
          | some c => some (.category (dataframeToCategory c))
          | none => probeClass entityId rest
      | .inr ars =>
          match ars.head? with
          | some a => some (.area (dataframeToArea a))
          | none => probeClass entityId rest

/-- `BasicQueryEngine.getEntityById`: journal handlers first, then
classification handlers, `none` when nothing is found. -/
def getEntityByIdE (jhs : List (List Row)) (chs : List ClassDB) (entityId : String) :
    Option Entity :=
  match probeJournals entityId jhs with
  | some j => some (.journal j)
  | none => probeClass entityId chs

/-! ## Chunked batched fetch (`_chunked`, `_fetch_journals_by_issns`) -/

/-- The generator body of `BasicQueryEngine._chunked`: accumulate a batch,
yield it when it reaches `size`, yield the remainder at the end. -/
def chunkedAux (size : Nat) (batch : List String) : List String → List (List String)
  | [] => if batch.isEmpty then [] else [batch]
  | x :: xs =>
      let b := batch ++ [x]
      if b.length = size then b :: chunkedAux size [] xs
      else chunkedAux size b xs

/-- `BasicQueryEngine._chunked`. -/
def chunked (items : List String) (size : Nat) : List (List String) :=
  chunkedAux size [] items

/-- The `Prop`-valued code-point order used for Python `sorted`. -/
def strLe (a b : String) : Prop := strLeB a b = true

instance : DecidableRel strLe := fun _ _ => instDecidableEqBool _ _

/-- Python `sorted({issn for issn in issns if issn})` on a set of
optional strings: drop `None` and `""`, deduplicate, sort. -/
def cleanedIds (issns : List (Option String)) : List String :=
  (((issns.filterMap id).filter (fun i => i ≠ "")).dedup).insertionSort strLe

/-- `BasicQueryEngine._fetch_journals_by_issns`: clean the identifier set,
return empty if nothing survives, otherwise query every handler in chunks
of 50 and merge everything through the journal merge map. -/
def fetchJournalsByIssns (jhs : List (List Row)) (issns : List (Option String)) : List Journal :=
  let cleaned := cleanedIds issns
  if cleaned.isEmpty then []
  else
    (jhs.foldl (fun m tbl =>
      (chunked cleaned 50).foldl (fun m c =>
        collectJournals (getJournalsByIssnsH tbl c) m) m) []).map (fun p => p.2)

/-- Modelled from the spec: the unchunked reference fetch the chunked
helper is compared against — a single `getJournalsByIssns` call per
handler carrying the whole cleaned identifier set, against a backend with
no request-size limit, merged through the same journal merge map. -/
def fetchJournalsByIssnsUnchunked (jhs : List (List Row)) (issns : List (Option String)) :
    List Journal :=
  let cleaned := cleanedIds issns
  if cleaned.isEmpty then []
  else
    (jhs.foldl (fun m tbl =>
      collectJournals (getJournalsByIssnsH tbl cleaned) m) []).map (fun p => p.2)

/-! ## Composite queries (`FullQueryEngine`) -/

/-- Python truthiness guard for the `cat.getIds()[0]` list comprehension
at the category-id narrowing step: evaluating it raises `IndexError` as
soon as one category has an empty identifier list. -/
def allCatsHaveIds (cats : List Cat) : Bool :=
  cats.all (fun c => !c.ids.isEmpty)

/-- The `for handler: for category:` identifier-union loop of the
composite queries (`journal_issns.update(...)` accumulation; the
resulting Python set is only ever used through membership). -/
def unionIssnsForCats (chs : List ClassDB) (cats : List Cat) : List (Option String) :=
  chs.foldl (fun acc db =>
    cats.foldl (fun acc c => acc ++ issnsForCategory db (c.ids.headD "")) acc) []

/-- The area identifier-union loop (`for handler: for area_id:`). -/
def unionIssnsForAreas (chs : List ClassDB) (areaIds : List String) : List (Option String) :=
  chs.foldl (fun acc db =>
    areaIds.foldl (fun acc a => acc ++ issnsForArea db a) acc) []

/-- `FullQueryEngine.getJournalsInCategoriesWithQuartile`, instrumented:
the second component counts the store calls performed after the
quartile resolution (one per `_get_issns_for_category` lookup plus one
per `getJournalsByIssns` chunk query inside the batched fetch). -/
def getJournalsInCatsWithQuartile (jhs : List (List Row)) (chs : List ClassDB)
    (categoryIds quartiles : List String) : List Journal × Nat :=
  let cats0 := engineCatsWithQuartile chs quartiles
  if cats0.isEmpty ∧ ¬quartiles.isEmpty then ([], 0)
  else if ¬categoryIds.isEmpty ∧ ¬allCatsHaveIds cats0 then
    ([], 0)  -- IndexError while narrowing, caught at the boundary
  else
    let cats1 := if categoryIds.isEmpty then cats0
      else cats0.filter (fun c => categoryIds.contains (c.ids.headD ""))
    if ¬categoryIds.isEmpty ∧ cats1.isEmpty then ([], 0)
    else if cats1.isEmpty then ([], 0)
    else if ¬chs.isEmpty ∧ ¬allCatsHaveIds cats1 then
      ([], 0)  -- IndexError inside the identifier-union loop, caught
    else
      let issns := unionIssnsForCats chs cats1
      let fetchCalls := if (cleanedIds issns).isEmpty then 0
        else jhs.length * (chunked (cleanedIds issns) 50).length
      (fetchJournalsByIssns jhs issns, chs.length * cats1.length + fetchCalls)

/-- Insertion-ordered overwrite (`filtered[journal_issn] = journal`). -/
def upsertJ (m : JMap) (k : String) (j : Journal) : JMap :=
  if (lookupJ m k).isSome then m.map (fun p => if p.1 = k then (p.1, j) else p)
  else m ++ [(k, j)]

/-- `FullQueryEngine.getDiamondJournalsInAreasAndCategoriesWithQuartile`. -/
def getDiamond (jhs : List (List Row)) (chs : List ClassDB)
    (areaIds categoryIds quartiles : List String) : List Journal :=
  let noApc := (engineGetAllJournals jhs).filter (fun j => !j.apc)
  let areaSet : Option (List (Option String)) :=
    if areaIds.isEmpty then none else some (unionIssnsForAreas chs areaIds)
  let cats0 := engineCatsWithQuartile chs quartiles
  if cats0.isEmpty ∧ ¬quartiles.isEmpty then []
  else if ¬categoryIds.isEmpty ∧ ¬allCatsHaveIds cats0 then
    []  -- IndexError while narrowing, caught at the boundary
  else
    let cats1 := if categoryIds.isEmpty then cats0
      else cats0.filter (fun c => categoryIds.contains (c.ids.headD ""))
    if ¬categoryIds.isEmpty ∧ cats1.isEmpty then []
    else if ¬cats1.isEmpty ∧ ¬chs.isEmpty ∧ ¬allCatsHaveIds cats1 then
      []  -- IndexError inside the identifier-union loop, caught
    else
      let catSet : Option (List (Option String)) :=
        if cats1.isEmpty then none else some (unionIssnsForCats chs cats1)
      (noApc.foldl (fun m j =>
        match j.ids.head? with
        | none => m
        | some jid =>
            if jid = "" then m
            else if (match areaSet with
                     | none => true
                     | some s => s.contains (some jid)) then
              if (match catSet with
                  | none => true
                  | some s => s.contains (some jid)) then
                upsertJ m jid j
              else m
            else m) []).map (fun p => p.2)

/-! ## Heap model for the accessor-copy claim

Python list attributes are heap objects; `getIds`, `getLanguages`,
`getCategories` and `getAreas` all execute `return self._xs.copy()`,
allocating a fresh list object.  We model a heap of list objects indexed
by naturals, with allocation at the bump pointer `nextRef`. -/

/-- A heap of Python list objects holding `α` elements. -/
structure Heap (α : Type) where
  store : Nat → List α
  nextRef : Nat

/-- Dereference a list object. -/
def heapRead {α : Type} (h : Heap α) (r : Nat) : List α := h.store r

/-- In-place mutation of a list object (e.g. `lst.append(x)`, `lst[i] = x`). -/
def heapWrite {α : Type} (h : Heap α) (r : Nat) (v : List α) : Heap α :=
  ⟨fun x => if x = r then v else h.store x, h.nextRef⟩

/-- Allocate a fresh list object. -/
def heapAlloc {α : Type} (h : Heap α) (v : List α) : Nat × Heap α :=
  (h.nextRef, ⟨fun x => if x = h.nextRef then v else h.store x, h.nextRef + 1⟩)

/-- `return self._xs.copy()`: allocate a fresh list object holding a copy
of the entity's internal list and hand back its reference. -/
def copyAccessor {α : Type} (h : Heap α) (selfRef : Nat) : Nat × Heap α :=
  heapAlloc h (heapRead h selfRef)

/-- `IdentifiableEntity.getIds` (the entity's `_ids` lives at `selfRef`). -/
def getIdsM (h : Heap String) (selfRef : Nat) : Nat × Heap String := copyAccessor h selfRef

/-- `Journal.getLanguages`. -/
def getLanguagesM (h : Heap String) (selfRef : Nat) : Nat × Heap String := copyAccessor h selfRef

/-- `Journal.getCategories`. -/
def getCategoriesM (h : Heap Cat) (selfRef : Nat) : Nat × Heap Cat := copyAccessor h selfRef

/-- `Journal.getAreas`. -/
def getAreasM (h : Heap AreaE) (selfRef : Nat) : Nat × Heap AreaE := copyAccessor h selfRef

/-! # Claims -/

/-! ## C9 — identifier-list invariant -/

/-- `addId` preserves the identifier-list invariant. -/
theorem idsInv_addId (ids : List String) (s : String) (h : idsInv ids) :
    idsInv (addId ids s) := by
  unfold addId idsInv at *
  split
  · rename_i hc
    constructor
    · simp only [List.mem_append, List.mem_singleton]
      rintro (h1 | h2)
      · exact h.1 h1
      · exact hc.1 h2.symm
    · simp only [List.nodup_append, List.nodup_cons, List.nodup_nil, and_true,
        List.disjoint_singleton]
      exact ⟨h.2, by simpa using hc.2⟩
  · exact h

/-- `setId` establishes the identifier-list invariant. -/
theorem idsInv_setId (s : String) : idsInv (setId s) := by
  unfold setId idsInv
  split
  · rename_i hc
    exact ⟨by simpa using fun h => hc h.symm, List.nodup_singleton s⟩
  · exact ⟨by simp, List.nodup_nil⟩

/-- Every sequence of mutators preserves the invariant. -/
theorem idsInv_applyIdOps (ops : List IdOp) :
    ∀ ids, idsInv ids → idsInv (applyIdOps ids ops) := by
  induction ops with
  | nil => exact fun ids h => h
  | cons op rest ih =>
      intro ids h
      cases op with
      | add s => exact ih _ (idsInv_addId ids s h)
      | set s => exact ih _ (idsInv_setId s)

/-- Claim C9: starting from the freshly constructed entity, every
sequence of `addId`/`setId` calls keeps the identifier list free of empty
strings and duplicates; `addId` is a no-op on empty or already-present
input and appends new non-empty identifiers at the end; `setId` replaces
the whole set with at most one identifier, the empty input yielding the
empty set. -/
theorem addId_setId_identifier_invariant :
    (∀ ops : List IdOp, idsInv (applyIdOps [] ops))
    ∧ (∀ ids s, s = "" ∨ s ∈ ids → addId ids s = ids)
    ∧ (∀ ids s, s ≠ "" → s ∉ ids → addId ids s = ids ++ [s])
    ∧ setId "" = []
    ∧ (∀ s, s ≠ "" → setId s = [s]) := by
  refine ⟨fun ops => idsInv_applyIdOps ops [] ⟨by simp, List.nodup_nil⟩, ?_, ?_, rfl, ?_⟩
  · intro ids s h
    unfold addId
    rw [if_neg]
    rintro ⟨h1, h2⟩
    rcases h with h | h
    · exact h1 h
    · exact h2 h
  · intro ids s h1 h2
    unfold addId
    rw [if_pos ⟨h1, h2⟩]
  · intro s h
    unfold setId
    rw [if_pos h]

/-- Witness for C9 at concrete inputs. -/
theorem addId_setId_identifier_invariant_witness :
    idsInv (applyIdOps [] [.add "a", .add "", .add "a", .set "b"])
    ∧ addId ["a"] "a" = ["a"]
    ∧ addId ["a"] "b" = ["a", "b"]
    ∧ setId "b" = ["b"] :=
  ⟨addId_setId_identifier_invariant.1 _,
   addId_setId_identifier_invariant.2.1 _ _ (Or.inr (by decide)),
   addId_setId_identifier_invariant.2.2.1 _ _ (by decide) (by decide),
   addId_setId_identifier_invariant.2.2.2.2 _ (by decide)⟩

/-! ## C8 — handler registration idempotence -/

/-- Registration with reference-deduplication: adding to a list that
holds an instance at most once twice in a row leaves exactly one entry. -/
theorem count_register_twice (l : List Nat) (h : Nat) (hc : l.count h ≤ 1) :
    ((if h ∈ (if h ∈ l then l else l ++ [h]) then (if h ∈ l then l else l ++ [h])
      else (if h ∈ l then l else l ++ [h]) ++ [h]).count h) = 1 := by
  by_cases hm : h ∈ l
  · have h1 : l.count h = 1 := Nat.le_antisymm hc (List.count_pos_iff.mpr hm)
    simp [hm, h1]
  · have h0 : l.count h = 0 := List.count_eq_zero_of_not_mem hm
    have hm2 : h ∈ l ++ [h] := by simp
    simp [hm, hm2, h0]

/-- Claim C8: registering the same handler instance twice through
`addJournalHandler` or `addCategoryHandler` leaves the corresponding
handler collection with exactly one entry for that instance (on any
state the registration API can produce, i.e. one holding the instance at
most once), and registration and clearing report success. -/
theorem register_same_handler_twice_idempotent :
    (∀ (s : EngineState) (h : Nat), s.journalQuery.count h ≤ 1 →
      ((addJournalHandler (addJournalHandler s h).1 h).1.journalQuery.count h = 1))
    ∧ (∀ (s : EngineState) (h : Nat), s.categoryQuery.count h ≤ 1 →
      ((addCategoryHandler (addCategoryHandler s h).1 h).1.categoryQuery.count h = 1))
    ∧ (∀ (s : EngineState) (h : Nat),
      (addJournalHandler s h).2 = true ∧ (addCategoryHandler s h).2 = true
      ∧ (cleanJournalHandlers s).2 = true ∧ (cleanCategoryHandlers s).2 = true) := by
  refine ⟨?_, ?_, fun s h => ⟨rfl, rfl, rfl, rfl⟩⟩
  · intro s h hc
    exact count_register_twice s.journalQuery h hc
  · intro s h hc
    exact count_register_twice s.categoryQuery h hc

/-- Witness for C8 at a concrete state. -/
theorem register_same_handler_twice_idempotent_witness :
    ((addJournalHandler (addJournalHandler ⟨[7], [5]⟩ 3).1 3).1.journalQuery.count 3 = 1)
    ∧ ((addCategoryHandler (addCategoryHandler ⟨[7], [5]⟩ 5).1 5).1.categoryQuery.count 5 = 1)
    ∧ (addJournalHandler ⟨[7], [5]⟩ 3).2 = true :=
  ⟨register_same_handler_twice_idempotent.1 ⟨[7], [5]⟩ 3 (by decide),
   register_same_handler_twice_idempotent.2.1 ⟨[7], [5]⟩ 5 (by decide),
   (register_same_handler_twice_idempotent.2.2 ⟨[7], [5]⟩ 3).1⟩

/-! ## C10 — accessors return copies -/

/-- Frame property of `copyAccessor` over the heap model: the returned
object is fresh, mutating it leaves the entity's internal list untouched,
and its initial content equals the internal list. -/
theorem copyAccessor_frame {α : Type} (h : Heap α) (r : Nat) (hr : r < h.nextRef)
    (v : List α) :
    (copyAccessor h r).1 ≠ r
    ∧ heapRead (heapWrite (copyAccessor h r).2 (copyAccessor h r).1 v) r = heapRead h r
    ∧ heapRead (copyAccessor h r).2 (copyAccessor h r).1 = heapRead h r := by
  have hne : h.nextRef ≠ r := fun e => absurd (e ▸ hr) (lt_irrefl _)
  have hne2 : ¬(r = h.nextRef) := fun e => hne e.symm
  refine ⟨hne, ?_, ?_⟩
  · simp [copyAccessor, heapAlloc, heapRead, heapWrite, hne2]
  · simp [copyAccessor, heapAlloc, heapRead]

/-- Claim C10: `getIds`, `getLanguages`, `getCategories` and `getAreas`
each return a fresh copy of the internal list, so mutating the returned
list never changes the entity's observable state: the internal list is
unchanged and a subsequent accessor call still returns the original
elements. -/
theorem list_accessors_return_copies :
    (∀ (h : Heap String) (r : Nat), r < h.nextRef → ∀ v,
      (getIdsM h r).1 ≠ r
      ∧ heapRead (heapWrite (getIdsM h r).2 (getIdsM h r).1 v) r = heapRead h r
      ∧ heapRead (getIdsM (heapWrite (getIdsM h r).2 (getIdsM h r).1 v) r).2
          (getIdsM (heapWrite (getIdsM h r).2 (getIdsM h r).1 v) r).1 = heapRead h r)
    ∧ (∀ (h : Heap String) (r : Nat), r < h.nextRef → ∀ v,
      (getLanguagesM h r).1 ≠ r
      ∧ heapRead (heapWrite (getLanguagesM h r).2 (getLanguagesM h r).1 v) r = heapRead h r)
    ∧ (∀ (h : Heap Cat) (r : Nat), r < h.nextRef → ∀ v,
      (getCategoriesM h r).1 ≠ r
      ∧ heapRead (heapWrite (getCategoriesM h r).2 (getCategoriesM h r).1 v) r = heapRead h r)
    ∧ (∀ (h : Heap AreaE) (r : Nat), r < h.nextRef → ∀ v,
      (getAreasM h r).1 ≠ r
      ∧ heapRead (heapWrite (getAreasM h r).2 (getAreasM h r).1 v) r = heapRead h r) := by
  refine ⟨?_, ?_, ?_, ?_⟩
  · intro h r hr v
    obtain ⟨h1, h2, _⟩ := copyAccessor_frame h r hr v
    refine ⟨h1, h2, ?_⟩
    have hr2 : r < (heapWrite (getIdsM h r).2 (getIdsM h r).1 v).nextRef := by
      simpa [getIdsM, copyAccessor, heapAlloc, heapWrite] using Nat.lt_succ_of_lt hr
    have h3 := (copyAccessor_frame (heapWrite (getIdsM h r).2 (getIdsM h r).1 v) r hr2 v).2.2
    exact h3.trans h2
  · intro h r hr v
    obtain ⟨h1, h2, _⟩ := copyAccessor_frame h r hr v
    exact ⟨h1, h2⟩
  · intro h r hr v
    obtain ⟨h1, h2, _⟩ := copyAccessor_frame h r hr v
    exact ⟨h1, h2⟩
  · intro h r hr v
    obtain ⟨h1, h2, _⟩ := copyAccessor_frame h r hr v
    exact ⟨h1, h2⟩

/-- Witness for C10 on a concrete one-object heap. -/
theorem list_accessors_return_copies_witness :
    (getIdsM ⟨fun _ => ["1111"], 1⟩ 0).1 ≠ 0
    ∧ heapRead (heapWrite (getIdsM ⟨fun _ => ["1111"], 1⟩ 0).2
        (getIdsM ⟨fun _ => ["1111"], 1⟩ 0).1 []) 0 = heapRead ⟨fun _ => ["1111"], 1⟩ 0 :=
  ⟨(list_accessors_return_copies.1 ⟨fun _ => ["1111"], 1⟩ 0 (by decide) []).1,
   (list_accessors_return_copies.1 ⟨fun _ => ["1111"], 1⟩ 0 (by decide) []).2.1⟩

/-! ## C2 — empty set-valued filters -/

/-- Counterexample to C2 as stated: `getByIds` with an empty identifier
set returns an empty DataFrame even though the store holds a journal, so
not every set-valued filter treats the empty set as "no filter". -/
theorem empty_filter_getByIds_cex :
    getByIdsH [⟨some "j", some "T", some "1111", none, none, none, none, none, none⟩] [] = []
    ∧ getAllJournalsH
        [⟨some "j", some "T", some "1111", none, none, none, none, none, none⟩] ≠ [] := by
  constructor
  · rfl
  · decide

/-- Claim C2 amended: the empty set means "no filter" for
`getJournalsWithLicense`, `getCategoriesWithQuartile`,
`getCategoriesAssignedToAreas` and `getAreasAssignedToCategories`
(each returns exactly what the corresponding list-all method returns),
but the identifier-set lookups `getByIds` and `getJournalsByIssns`
return an empty result on an empty input set. -/
theorem empty_filter_means_no_filter_amended (tbl : List Row) (db : ClassDB) :
    getJournalsWithLicenseH tbl [] = getAllJournalsH tbl
    ∧ getCategoriesWithQuartileH db [] = getAllCategoriesH db
    ∧ getCategoriesAssignedToAreasH db [] = getAllCategoriesH db
    ∧ getAreasAssignedToCategoriesH db [] = getAllAreasH db
    ∧ getByIdsH tbl [] = []
    ∧ getJournalsByIssnsH tbl [] = [] :=
  ⟨rfl, rfl, rfl, rfl, rfl, rfl⟩

/-! ## Shared association-list lemmas for the journal merge map -/

/-- The keys of a merge map. -/
def keysJ (m : JMap) : List String := m.map (fun p => p.1)

theorem lookupJ_nil (k : String) : lookupJ [] k = none := rfl

theorem lookupJ_cons (p : String × Journal) (m : JMap) (k : String) :
    lookupJ (p :: m) k = if p.1 = k then some p.2 else lookupJ m k := by
  by_cases hp : p.1 = k
  · simp [lookupJ, List.find?_cons_of_pos, hp]
  · simp [lookupJ, List.find?_cons_of_neg, hp]

theorem lookupJ_append (m1 m2 : JMap) (k : String) :
    lookupJ (m1 ++ m2) k = (lookupJ m1 k).or (lookupJ m2 k) := by
  induction m1 with
  | nil => simp [lookupJ_nil]
  | cons p m ih =>
      rw [List.cons_append, lookupJ_cons, lookupJ_cons]
      by_cases hp : p.1 = k <;> simp [hp, ih]

theorem lookupJ_updateJ_self (m : JMap) (k : String) (r : Row) :
    lookupJ (updateJ m k r) k = (lookupJ m k).map (fun j => updateJournalFromRow j r) := by
  induction m with
  | nil => rfl
  | cons p m ih =>
      by_cases hp : p.1 = k
      · simp [updateJ, lookupJ_cons, hp]
      · simp only [updateJ, List.map_cons]
        rw [if_neg (by simpa using hp)]
        rw [lookupJ_cons, lookupJ_cons, if_neg hp, if_neg hp]
        simpa [updateJ] using ih

theorem lookupJ_updateJ_ne (m : JMap) (k k' : String) (r : Row) (h : k' ≠ k) :
    lookupJ (updateJ m k r) k' = lookupJ m k' := by
  induction m with
  | nil => rfl
  | cons p m ih =>
      by_cases hp : p.1 = k
      · have hq : ¬(p.1 = k') := by
          rw [hp]
          exact fun e => h e.symm
        simp only [updateJ, List.map_cons]
        rw [if_pos (by simpa using hp)]
        rw [lookupJ_cons, lookupJ_cons]
        rw [if_neg hq, if_neg hq]
        simpa [updateJ] using ih
      · simp only [updateJ, List.map_cons]
        rw [if_neg (by simpa using hp)]
        rw [lookupJ_cons, lookupJ_cons]
        by_cases hq : p.1 = k'
        · simp [hq]
        · rw [if_neg hq, if_neg hq]
          simpa [updateJ] using ih

theorem keysJ_updateJ (m : JMap) (k : String) (r : Row) :
    keysJ (updateJ m k r) = keysJ m := by
  induction m with
  | nil => rfl
  | cons p m ih =>
      simp only [updateJ, keysJ, List.map_cons] at *
      by_cases hp : p.1 = k
      · rw [if_pos (by simpa using hp)]
        simpa [hp] using ih
      · rw [if_neg (by simpa using hp)]
        simpa using ih

theorem keysJ_append (m1 m2 : JMap) : keysJ (m1 ++ m2) = keysJ m1 ++ keysJ m2 := by
  simp [keysJ]

theorem lookupJ_eq_none_iff (m : JMap) (k : String) :
    lookupJ m k = none ↔ k ∉ keysJ m := by
  induction m with
  | nil => simp [lookupJ_nil, keysJ]
  | cons p m ih =>
      rw [lookupJ_cons]
      by_cases hp : p.1 = k
      · simp [hp, keysJ]
      · rw [if_neg hp, ih]
        simp only [keysJ, List.map_cons, List.mem_cons, not_or]
        constructor
        · exact fun h2 => ⟨fun e => hp e.symm, h2⟩
        · exact fun h2 => h2.2

theorem lookupJ_isSome_iff (m : JMap) (k : String) :
    (lookupJ m k).isSome = true ↔ k ∈ keysJ m := by
  constructor
  · intro h
    by_contra hm
    rw [← lookupJ_eq_none_iff] at hm
    rw [hm] at h
    simp at h
  · intro h
    cases hl : lookupJ m k with
    | none => exact absurd h ((lookupJ_eq_none_iff m k).mp hl)
    | some j => rfl

/-! ## C1 — journal merge keying and merge rules -/

/-- Counterexample to C1 as stated: two rows with neither ISSN nor EISSN
do not get a synthetic per-row key that matches no other row — the key
falls back to the bound `journal` column first, so the two rows share the
key `"J"` and are merged into a single map entry. -/
theorem journal_key_fallback_cex :
    getJournalKey ⟨some "J", some "A", none, none, none, none, none, none, none⟩ 0
      = getJournalKey ⟨some "J", some "B", none, none, none, none, none, none, none⟩ 1
    ∧ getJournalKey ⟨some "J", some "A", none, none, none, none, none, none, none⟩ 0
      ≠ "__row_0"
    ∧ (collectJournals
        [⟨some "J", some "A", none, none, none, none, none, none, none⟩,
         ⟨some "J", some "B", none, none, none, none, none, none, none⟩] []).length = 1 := by
  refine ⟨by decide, by decide, by decide⟩

/-- Every journal key is a non-empty string. -/
theorem getJournalKey_ne_empty (r : Row) (i : Nat) : getJournalKey r i ≠ "" := by
  have hs : ∀ v : Option String, hasValue v = true → strip v ≠ "" := by
    intro v hv
    cases v with
    | none => simp [hasValue] at hv
    | some s =>
        simp only [hasValue, Bool.not_eq_true', beq_eq_false_iff_ne, ne_eq] at hv
        simpa [strip] using hv
  have hr : ("__row_" ++ toString i) ≠ "" := by
    intro e
    have h6 := congrArg String.length e
    rw [String.length_append] at h6
    have h7 : "__row_".length = 6 := rfl
    have h8 : "".length = 0 := rfl
    rw [h7, h8] at h6
    exact absurd h6 (by omega)
  unfold getJournalKey
  split
  · rename_i h
    exact hs _ h
  · split
    · rename_i h
      exact hs _ h
    · split
      · rename_i h
        exact hs _ h
      · exact hr

set_option maxHeartbeats 2000000 in
/-- Closed form of `updateJournalFromRow`: the four sequential mutation
statements touch pairwise distinct fields, so each output field depends
only on the incoming journal. -/
theorem updateJournalFromRow_eq (j : Journal) (r : Row) :
    updateJournalFromRow j r =
      { ids := j.ids
        title := if hasValue r.title ∧ j.title = "" then strip r.title else j.title
        languages := if hasValue r.language ∧ strip r.language ∉ j.languages
          then j.languages ++ [strip r.language] else j.languages
        publisher := if hasValue r.publisher ∧ (j.publisher = none ∨ j.publisher = some "")
          then some (strip r.publisher) else j.publisher
        sealFlag := if hasValue r.sealCol then toBool r.sealCol else j.sealFlag
        licence := if hasValue r.licence ∧ j.licence = "" then strip r.licence else j.licence
        apc := if hasValue r.apc then toBool r.apc else j.apc } := by
  unfold updateJournalFromRow
  dsimp only
  split_ifs <;> rfl

/-- Claim C1 amended: the merge key is the ISSN when meaningful, else the
EISSN, else the bound `journal` column, else the synthetic key
`__row_{idx}` built from the row's index inside its own DataFrame (which
can repeat across DataFrames); and on a repeat key the merge fills title,
publisher and licence only while empty, appends unseen languages, leaves
the identifier list untouched, and overwrites the seal and apc booleans
whenever the new row carries a meaningful value. -/
theorem journal_merge_key_and_rules :
    (∀ (r : Row) (i : Nat), hasValue r.issn = true → getJournalKey r i = strip r.issn)
    ∧ (∀ (r : Row) (i : Nat), hasValue r.issn = false → hasValue r.eissn = true →
        getJournalKey r i = strip r.eissn)
    ∧ (∀ (r : Row) (i : Nat), hasValue r.issn = false → hasValue r.eissn = false →
        hasValue r.journal = true → getJournalKey r i = strip r.journal)
    ∧ (∀ (r : Row) (i : Nat), hasValue r.issn = false → hasValue r.eissn = false →
        hasValue r.journal = false → getJournalKey r i = "__row_" ++ toString i)
    ∧ (∀ (j : Journal) (r : Row),
        (updateJournalFromRow j r).ids = j.ids
        ∧ (updateJournalFromRow j r).title =
            (if hasValue r.title = true ∧ j.title = "" then strip r.title else j.title)
        ∧ (updateJournalFromRow j r).languages =
            (if hasValue r.language = true ∧ strip r.language ∉ j.languages
             then j.languages ++ [strip r.language] else j.languages)
        ∧ (updateJournalFromRow j r).publisher =
            (if hasValue r.publisher = true ∧ (j.publisher = none ∨ j.publisher = some "")
             then some (strip r.publisher) else j.publisher)
        ∧ (updateJournalFromRow j r).licence =
            (if hasValue r.licence = true ∧ j.licence = "" then strip r.licence else j.licence)
        ∧ (updateJournalFromRow j r).sealFlag =
            (if hasValue r.sealCol = true then toBool r.sealCol else j.sealFlag)
        ∧ (updateJournalFromRow j r).apc =
            (if hasValue r.apc = true then toBool r.apc else j.apc))
    ∧ (∀ (m : JMap) (i : Nat) (r : Row),
        lookupJ (collectRow m i r) (getJournalKey r i) =
          some (match lookupJ m (getJournalKey r i) with
                | some j => updateJournalFromRow j r
                | none => dataframeToJournal r)) := by
  refine ⟨?_, ?_, ?_, ?_, ?_, ?_⟩
  · intro r i h
    simp [getJournalKey, h]
  · intro r i h1 h2
    simp [getJournalKey, h1, h2]
  · intro r i h1 h2 h3
    simp [getJournalKey, h1, h2, h3]
  · intro r i h1 h2 h3
    simp [getJournalKey, h1, h2, h3]
  · intro j r
    rw [updateJournalFromRow_eq]
    exact ⟨rfl, rfl, rfl, rfl, rfl, rfl, rfl⟩
  · intro m i r
    unfold collectRow
    rw [if_neg (getJournalKey_ne_empty r i)]
    by_cases hl : (lookupJ m (getJournalKey r i)).isSome = true
    · rw [if_pos hl]
      obtain ⟨j, hj⟩ := Option.isSome_iff_exists.mp hl
      rw [lookupJ_updateJ_self, hj]
      rfl
    · rw [if_neg hl]
      have hnone : lookupJ m (getJournalKey r i) = none := by
        cases h : lookupJ m (getJournalKey r i)
        · rfl
        · exact absurd (by simp [h]) hl
      rw [lookupJ_append, hnone]
      simp [lookupJ_cons]

/-- Witness for C1 at concrete inputs (an EISSN-keyed row merged into a
journal with an empty title and one language). -/
theorem journal_merge_key_and_rules_witness :
    getJournalKey ⟨none, none, none, some "2222", none, none, none, none, none⟩ 4 = "2222"
    ∧ (updateJournalFromRow ⟨["2222"], "", ["en"], none, false, "", false⟩
        ⟨none, some "T", none, some "2222", some "fr", none, some "true", none, none⟩).title = "T"
    ∧ (updateJournalFromRow ⟨["2222"], "", ["en"], none, false, "", false⟩
        ⟨none, some "T", none, some "2222", some "fr", none, some "true", none, none⟩).languages
        = ["en", "fr"] := by
  refine ⟨?_, ?_, ?_⟩
  · exact journal_merge_key_and_rules.2.1 _ 4 (by decide) (by decide)
  · rw [(journal_merge_key_and_rules.2.2.2.2.1 _ _).2.1]
    decide
  · rw [(journal_merge_key_and_rules.2.2.2.2.1 _ _).2.2.1]
    decide

/-! ## C5 — failure policy at the public method boundary -/

/-- Counterexample to C5 as stated: with one healthy handler holding a
journal and a second handler that raises, `getAllJournals` returns the
empty list — the partial success already collected from the first
handler is not preserved. -/
theorem failure_discards_partial_success_cex :
    getAllJournalsExc
        [some [⟨some "j", some "T", some "1111", none, none, none, none, none, none⟩],
         none] = []
    ∧ getAllJournalsExc
        [some [⟨some "j", some "T", some "1111", none, none, none, none, none, none⟩]] ≠ [] := by
  exact ⟨rfl, by decide⟩

/-- On the exception-free path the failure-aware model agrees with the
plain engine. -/
theorem getAllJournalsExc_map_some (jhs : List (List Row)) :
    getAllJournalsExc (jhs.map some) = engineGetAllJournals jhs := by
  unfold getAllJournalsExc engineGetAllJournals
  suffices h : ∀ m, getAllJournalsExcGo m (jhs.map some) =
      (jhs.foldl (fun m tbl => collectJournals (getAllJournalsH tbl) m) m).map (fun p => p.2) by
    exact h []
  induction jhs with
  | nil => intro m; rfl
  | cons tbl rest ih => intro m; exact ih _

/-- Claim C5 amended: an exception raised by any handler during the
fan-out is caught at the public method boundary and converted into the
empty list — it is never surfaced to the caller — but the partial success
already obtained from handlers earlier in the loop is discarded, not
preserved; when no handler raises the result is the ordinary merged
fan-out. -/
theorem handler_failure_swallowed_amended :
    (∀ hs : List (Option (List Row)), none ∈ hs → getAllJournalsExc hs = [])
    ∧ (∀ jhs : List (List Row), getAllJournalsExc (jhs.map some) = engineGetAllJournals jhs) := by
  constructor
  · intro hs hmem
    unfold getAllJournalsExc
    suffices h : ∀ m, getAllJournalsExcGo m hs = [] by exact h []
    induction hs with
    | nil => cases hmem
    | cons o rest ih =>
        intro m
        cases o with
        | none => rfl
        | some tbl =>
            have hr : none ∈ rest := by
              rcases List.mem_cons.mp hmem with h | h
              · cases h
              · exact h
            exact ih hr _
  · exact getAllJournalsExc_map_some

/-- Witness for C5 at a concrete raising handler list. -/
theorem handler_failure_swallowed_amended_witness :
    getAllJournalsExc [none, some []] = []
    ∧ getAllJournalsExc ([[]].map some) = engineGetAllJournals [[]] :=
  ⟨handler_failure_swallowed_amended.1 _ (by decide),
   handler_failure_swallowed_amended.2 [[]]⟩

/-! ## C7 — `getEntityById` probe order -/

/-- Whether a classification handler's `getById` DataFrame is non-empty. -/
def classHitB (db : ClassDB) (entityId : String) : Bool :=
  match getClassByIdH db entityId with
  | .inl c => !c.isEmpty
  | .inr l => !l.isEmpty

/-- The entity a hitting classification handler produces: Category when
the DataFrame has a `quartile` column, Area otherwise. -/
def classHitEntity (db : ClassDB) (entityId : String) : Option Entity :=
  match getClassByIdH db entityId with
  | .inl c => c.head?.map (fun row => .category (dataframeToCategory row))
  | .inr l => l.head?.map (fun a => .area (dataframeToArea a))

/-- The journal probe is the first journal handler with a non-empty
`getById` DataFrame, its row 0 converted to a Journal. -/
theorem probeJournals_eq_find (entityId : String) (jhs : List (List Row)) :
    probeJournals entityId jhs =
      (jhs.find? (fun tbl => !(getByIdH tbl entityId).isEmpty)).bind
        (fun tbl => ((getByIdH tbl entityId).head?).map dataframeToJournal) := by
  induction jhs with
  | nil => rfl
  | cons tbl rest ih =>
      cases hdf : getByIdH tbl entityId with
      | nil =>
          rw [List.find?_cons_of_neg]
          · simpa [probeJournals, hdf] using ih
          · simp [hdf]
      | cons r rs =>
          rw [List.find?_cons_of_pos]
          · simp [probeJournals, hdf]
          · simp [hdf]

/-- The classification probe is the first classification handler with a
non-empty `getById` DataFrame, converted per the quartile-column rule. -/
theorem probeClass_eq_find (entityId : String) (chs : List ClassDB) :
    probeClass entityId chs =
      (chs.find? (fun db => classHitB db entityId)).bind
        (fun db => classHitEntity db entityId) := by
  induction chs with
  | nil => rfl
  | cons db rest ih =>
      by_cases hhit : classHitB db entityId = true
      · have hfind : (db :: rest).find? (fun d => classHitB d entityId) = some db :=
          List.find?_cons_of_pos _ hhit
        rw [hfind]
        unfold classHitB at hhit
        unfold probeClass classHitEntity
        cases hcl : getClassByIdH db entityId with
        | inl c =>
            rw [hcl] at hhit
            cases hc : c with
            | nil => simp [hc] at hhit
            | cons x xs => simp [hcl, hc]
        | inr l =>
            rw [hcl] at hhit
            cases hl : l with
            | nil => simp [hl] at hhit
            | cons x xs => simp [hcl, hl]
      · have hfind : (db :: rest).find? (fun d => classHitB d entityId) =
            rest.find? (fun d => classHitB d entityId) :=
          List.find?_cons_of_neg _ (by simpa using hhit)
        rw [hfind]
        unfold classHitB at hhit
        unfold probeClass
        cases hcl : getClassByIdH db entityId with
        | inl c =>
            rw [hcl] at hhit
            cases hc : c with
            | nil => simpa using ih
            | cons x xs => simp [hc] at hhit
        | inr l =>
            rw [hcl] at hhit
            cases hl : l with
            | nil => simpa using ih
            | cons x xs => simp [hl] at hhit

/-- Claim C7: `getEntityById` probes every journal handler first and
returns the first non-empty hit as a Journal; only when every journal
handler misses does it probe the classification handlers, the first
non-empty hit becoming a Category when its row has a quartile column and
an Area otherwise; and when nothing hits anywhere the result is the
explicit not-found value `none`, never a default-constructed entity. -/
theorem getEntityById_probe_order (jhs : List (List Row)) (chs : List ClassDB)
    (entityId : String) :
    (probeJournals entityId jhs =
      (jhs.find? (fun tbl => !(getByIdH tbl entityId).isEmpty)).bind
        (fun tbl => ((getByIdH tbl entityId).head?).map dataframeToJournal))
    ∧ (∀ j, probeJournals entityId jhs = some j →
        getEntityByIdE jhs chs entityId = some (.journal j))
    ∧ (probeJournals entityId jhs = none →
        getEntityByIdE jhs chs entityId =
          (chs.find? (fun db => classHitB db entityId)).bind
            (fun db => classHitEntity db entityId))
    ∧ ((∀ tbl ∈ jhs, getByIdH tbl entityId = []) → (∀ db ∈ chs, classHitB db entityId = false) →
        getEntityByIdE jhs chs entityId = none) := by
  refine ⟨probeJournals_eq_find entityId jhs, ?_, ?_, ?_⟩
  · intro j hj
    unfold getEntityByIdE
    rw [hj]
  · intro hn
    unfold getEntityByIdE
    rw [hn, probeClass_eq_find]
  · intro hj hc
    unfold getEntityByIdE
    have h1 : probeJournals entityId jhs = none := by
      rw [probeJournals_eq_find]
      have : jhs.find? (fun tbl => !(getByIdH tbl entityId).isEmpty) = none := by
        rw [List.find?_eq_none]
        intro tbl hmem
        simp [hj tbl hmem]
      rw [this]
      rfl
    rw [h1, probeClass_eq_find]
    have : chs.find? (fun db => classHitB db entityId) = none := by
      rw [List.find?_eq_none]
      intro db hmem
      simp [hc db hmem]
    rw [this]
    rfl

/-- Witness for C7: one journal handler that misses, one classification
handler whose category table hits. -/
theorem getEntityById_probe_order_witness :
    getEntityByIdE [[⟨some "j", some "T", some "1111", none, none, none, none, none, none⟩]]
        [⟨[⟨some "C1", some "Q1"⟩], [], [], []⟩] "C1"
      = some (.category ⟨["C1"], some "Q1"⟩)
    ∧ getEntityByIdE [[]] [⟨[], [], [], []⟩] "zzz" = none := by
  constructor
  · have h := (getEntityById_probe_order
        [[⟨some "j", some "T", some "1111", none, none, none, none, none, none⟩]]
        [⟨[⟨some "C1", some "Q1"⟩], [], [], []⟩] "C1").2.2.1 (by decide)
    rw [h]
    decide
  · exact (getEntityById_probe_order [[]] [⟨[], [], [], []⟩] "zzz").2.2.2
      (by decide) (by decide)

/-! ## Well-formed classification stores

Per the external-interface contract, every persisted classification row
carries a non-empty identifier; the composite queries' unguarded
`cat.getIds()[0]` indexing depends on it. -/

/-- Every category row of every registered classification store has a
meaningful identifier. -/
def wfClass (chs : List ClassDB) : Prop :=
  ∀ db ∈ chs, ∀ r ∈ db.categories, hasValue r.id = true

instance (chs : List ClassDB) : Decidable (wfClass chs) := by
  unfold wfClass
  infer_instance

/-- A meaningful value strips to a non-empty string. -/
theorem strip_ne_empty_of_hasValue (v : Option String) (h : hasValue v = true) :
    strip v ≠ "" := by
  cases v with
  | none => simp [hasValue] at h
  | some s =>
      simp only [hasValue, Bool.not_eq_true', beq_eq_false_iff_ne, ne_eq] at h
      simpa [strip] using h

/-- Converting a row with a meaningful id yields a one-element id list. -/
theorem dataframeToCategory_ids (row : CatRow) (h : hasValue row.id = true) :
    (dataframeToCategory row).ids = [strip row.id] := by
  unfold dataframeToCategory setId
  dsimp only
  rw [if_pos h, if_pos (strip_ne_empty_of_hasValue row.id h)]

theorem mem_distinctSortedCats (rows : List CatRow) (x : CatRow) :
    x ∈ distinctSortedCats rows ↔ x ∈ rows := by
  unfold distinctSortedCats
  rw [List.mem_insertionSort, List.mem_dedup]

/-- Handler results only contain rows of the handler's own table. -/
theorem mem_getCategoriesWithQuartileH (db : ClassDB) (qs : List String) (r : CatRow)
    (h : r ∈ getCategoriesWithQuartileH db qs) : r ∈ db.categories := by
  unfold getCategoriesWithQuartileH at h
  split at h
  · exact (mem_distinctSortedCats _ _).mp h
  · exact (List.mem_filter.mp ((mem_distinctSortedCats _ _).mp h)).1

/-- One collection step keeps every map entry's id list non-empty. -/
theorem collectCatRow_ids_nonempty (m : CMap) (i : Nat) (row : CatRow)
    (hrow : hasValue row.id = true) (hm : ∀ p ∈ m, p.2.ids ≠ []) :
    ∀ p ∈ collectCatRow m i row, p.2.ids ≠ [] := by
  intro p hp
  unfold collectCatRow at hp
  dsimp only at hp
  split at hp
  · obtain ⟨q, hq, rfl⟩ := List.mem_map.mp hp
    split
    · simpa using hm q hq
    · exact hm q hq
  · rcases List.mem_append.mp hp with h1 | h1
    · exact hm p h1
    · have : p.2 = dataframeToCategory row := by
        rcases List.mem_singleton.mp h1 with rfl
        rfl
      rw [this, dataframeToCategory_ids row hrow]
      simp

/-- Collecting a DataFrame of well-identified rows keeps every map
entry's id list non-empty. -/
theorem collectCategories_ids_nonempty (df : List CatRow) :
    ∀ (n : Nat) (m : CMap), (∀ r ∈ df, hasValue r.id = true) → (∀ p ∈ m, p.2.ids ≠ []) →
      ∀ p ∈ (df.enumFrom n).foldl (fun m q => collectCatRow m q.1 q.2) m, p.2.ids ≠ [] := by
  induction df with
  | nil => intro n m _ hm p hp; exact hm p hp
  | cons row rest ih =>
      intro n m hdf hm p hp
      rw [List.enumFrom_cons] at hp
      exact ih (n + 1) _ (fun r hr => hdf r (List.mem_cons_of_mem _ hr))
        (collectCatRow_ids_nonempty m n row (hdf row (List.mem_cons_self _ _)) hm) p hp

/-- All categories assembled from well-formed stores have ids. -/
theorem engineCats_ids_nonempty (chs : List ClassDB) (qs : List String) (hw : wfClass chs) :
    allCatsHaveIds (engineCatsWithQuartile chs qs) = true := by
  unfold engineCatsWithQuartile allCatsHaveIds
  rw [List.all_eq_true]
  have hfold : ∀ (l : List ClassDB), (∀ db ∈ l, ∀ r ∈ db.categories, hasValue r.id = true) →
      ∀ (m : CMap), (∀ p ∈ m, p.2.ids ≠ []) →
      ∀ p ∈ l.foldl (fun m db => collectCategories (getCategoriesWithQuartileH db qs) m) m,
        p.2.ids ≠ [] := by
    intro l
    induction l with
    | nil => intro _ m hm p hp; exact hm p hp
    | cons db rest ih =>
        intro hl m hm p hp
        rw [List.foldl_cons] at hp
        refine ih (fun d hd r hr => hl d (List.mem_cons_of_mem _ hd) r hr) _ ?_ p hp
        intro q hq
        exact collectCategories_ids_nonempty _ 0 m
          (fun r hr => hl db (List.mem_cons_self _ _) r
            (mem_getCategoriesWithQuartileH db qs r hr)) hm q hq
  intro c hc
  obtain ⟨p, hp, rfl⟩ := List.mem_map.mp hc
  have := hfold chs hw [] (by simp) p hp
  simpa [List.isEmpty_iff] using this

/-- Filtering preserves the all-have-ids property. -/
theorem allCatsHaveIds_filter (cats : List Cat) (p : Cat → Bool)
    (h : allCatsHaveIds cats = true) : allCatsHaveIds (cats.filter p) = true := by
  unfold allCatsHaveIds at *
  rw [List.all_eq_true] at *
  exact fun c hc => h c (List.mem_filter.mp hc).1

/-! ## C4 — quartile/category short-circuits in
`getJournalsInCategoriesWithQuartile` -/

/-- Claim C4: over well-formed classification stores, if `quartiles` is
non-empty and resolves to no category the method returns the empty list
with zero further store calls; if `categoryIds` is non-empty and the
narrowing eliminates every category it likewise returns empty with zero
further calls; otherwise it unions, over every classification handler
and every surviving category, that category's journal-id set and
batch-fetches the journals for the unioned identifiers (the call counter
recording one call per id-set lookup plus one per fetch chunk). -/
theorem journalsInCats_shortcircuit (jhs : List (List Row)) (chs : List ClassDB)
    (categoryIds quartiles : List String) (hw : wfClass chs) :
    (quartiles ≠ [] → engineCatsWithQuartile chs quartiles = [] →
      getJournalsInCatsWithQuartile jhs chs categoryIds quartiles = ([], 0))
    ∧ (categoryIds ≠ [] →
        (engineCatsWithQuartile chs quartiles).filter
          (fun c => categoryIds.contains (c.ids.headD "")) = [] →
        getJournalsInCatsWithQuartile jhs chs categoryIds quartiles = ([], 0))
    ∧ (∀ cats1 : List Cat,
        cats1 = (if categoryIds.isEmpty then engineCatsWithQuartile chs quartiles
          else (engineCatsWithQuartile chs quartiles).filter
            (fun c => categoryIds.contains (c.ids.headD ""))) →
        cats1 ≠ [] →
        getJournalsInCatsWithQuartile jhs chs categoryIds quartiles =
          (fetchJournalsByIssns jhs (unionIssnsForCats chs cats1),
           chs.length * cats1.length +
             (if (cleanedIds (unionIssnsForCats chs cats1)).isEmpty then 0
              else jhs.length * (chunked (cleanedIds (unionIssnsForCats chs cats1)) 50).length))) := by
  have hall : allCatsHaveIds (engineCatsWithQuartile chs quartiles) = true :=
    engineCats_ids_nonempty chs quartiles hw
  refine ⟨?_, ?_, ?_⟩
  · intro hq h0
    simp only [getJournalsInCatsWithQuartile]
    rw [if_pos ⟨by rw [h0]; rfl, by simpa [List.isEmpty_iff] using hq⟩]
  · intro hc hfilter
    simp only [getJournalsInCatsWithQuartile]
    by_cases h1 : (engineCatsWithQuartile chs quartiles).isEmpty = true
        ∧ ¬(quartiles.isEmpty = true)
    · rw [if_pos h1]
    · rw [if_neg h1]
      rw [if_neg (by
        rintro ⟨-, hna⟩
        exact hna hall)]
      have hce : ¬(categoryIds.isEmpty = true) := by
        simpa [List.isEmpty_iff] using hc
      rw [if_neg hce, hfilter]
      rw [if_pos ⟨hce, rfl⟩]
  · intro cats1 hdef hne
    have hcats0 : ¬((engineCatsWithQuartile chs quartiles).isEmpty = true) := by
      intro h0
      rw [List.isEmpty_iff] at h0
      apply hne
      rw [hdef, h0]
      split <;> rfl
    have hall1 : allCatsHaveIds cats1 = true := by
      rw [hdef]
      split
      · exact hall
      · exact allCatsHaveIds_filter _ _ hall
    simp only [getJournalsInCatsWithQuartile]
    rw [if_neg (fun h => hcats0 h.1)]
    rw [if_neg (by
      rintro ⟨-, hna⟩
      exact hna hall)]
    rw [← hdef]
    have hne2 : ¬(cats1.isEmpty = true) := by simpa [List.isEmpty_iff] using hne
    rw [if_neg (fun h => hne2 h.2), if_neg hne2]
    rw [if_neg (by
      rintro ⟨-, hna⟩
      exact hna hall1)]

/-- Witness for C4: a store holding one Q1 category, queried for Q9. -/
theorem journalsInCats_shortcircuit_witness :
    getJournalsInCatsWithQuartile [[]] [⟨[⟨some "C1", some "Q1"⟩], [], [], []⟩] [] ["Q9"]
      = ([], 0) :=
  (journalsInCats_shortcircuit [[]] [⟨[⟨some "C1", some "Q1"⟩], [], [], []⟩] [] ["Q9"]
    (by decide)).1 (by decide) (by decide)

/-! ## Journal merge map invariants -/

/-- Invariant of the journal merge map: keys are distinct, and every
entry's identifier list is either exactly its key or empty. -/
def jmapInv (m : JMap) : Prop :=
  (keysJ m).Nodup ∧ ∀ p ∈ m, p.2.ids = [p.1] ∨ p.2.ids = []

/-- A converted journal's identifier list is its merge key (when the key
came from the issn/eissn columns) or empty (journal-URI or synthetic
keys). -/
theorem dataframeToJournal_ids_key (r : Row) (i : Nat) :
    (dataframeToJournal r).ids = [getJournalKey r i] ∨ (dataframeToJournal r).ids = [] := by
  unfold dataframeToJournal getJournalKey setId
  by_cases h1 : hasValue r.issn = true
  · left
    simp [h1, strip_ne_empty_of_hasValue r.issn h1]
  · by_cases h2 : hasValue r.eissn = true
    · left
      simp [h1, h2, strip_ne_empty_of_hasValue r.eissn h2]
    · right
      simp [h1, h2]

/-- One collection step preserves the merge map invariant. -/
theorem collectRow_inv (m : JMap) (i : Nat) (r : Row) (h : jmapInv m) :
    jmapInv (collectRow m i r) := by
  unfold collectRow
  dsimp only
  split
  · exact h
  · split
    · constructor
      · rw [keysJ_updateJ]
        exact h.1
      · intro p hp
        unfold updateJ at hp
        obtain ⟨q, hq, rfl⟩ := List.mem_map.mp hp
        split
        · have := h.2 q hq
          rcases this with h1 | h1 <;>
            simp only [updateJournalFromRow_eq] <;> [left; right] <;> simpa using h1
        · exact h.2 q hq
    · rename_i hnone
      have hnotmem : getJournalKey r i ∉ keysJ m := by
        rw [← lookupJ_eq_none_iff]
        cases hl : lookupJ m (getJournalKey r i)
        · rfl
        · rw [hl] at hnone
          simp at hnone
      constructor
      · rw [keysJ_append]
        simp only [keysJ, List.map_cons, List.map_nil]
        rw [List.nodup_append]
        refine ⟨h.1, List.nodup_singleton _, ?_⟩
        intro a ha hb
        rcases List.mem_singleton.mp hb with rfl
        exact hnotmem ha
      · intro p hp
        rcases List.mem_append.mp hp with h1 | h1
        · exact h.2 p h1
        · rcases List.mem_singleton.mp h1 with rfl
          exact dataframeToJournal_ids_key r i

/-- Collecting a whole DataFrame preserves the merge map invariant. -/
theorem collectJournals_inv (df : List Row) :
    ∀ (n : Nat) (m : JMap), jmapInv m →
      jmapInv ((df.enumFrom n).foldl (fun m p => collectRow m p.1 p.2) m) := by
  induction df with
  | nil => intro n m h; exact h
  | cons r rest ih =>
      intro n m h
      rw [List.enumFrom_cons]
      exact ih (n + 1) _ (collectRow_inv m n r h)

/-- The fan-out fold over any handler list preserves the invariant. -/
theorem handlerFold_inv (dfs : List (List Row)) :
    ∀ m : JMap, jmapInv m →
      jmapInv (dfs.foldl (fun m df => collectJournals df m) m) := by
  induction dfs with
  | nil => intro m h; exact h
  | cons df rest ih =>
      intro m h
      exact ih _ (collectJournals_inv df 0 m h)

/-- Under the invariant, the survivors' first identifiers form a sublist
of the key list. -/
theorem values_filterMap_head_sublist (m : JMap)
    (hinv : ∀ p ∈ m, p.2.ids = [p.1] ∨ p.2.ids = []) :
    ((m.map (fun p => p.2)).filterMap (fun j => j.ids.head?)).Sublist (keysJ m) := by
  induction m with
  | nil => simp
  | cons p rest ih =>
      have hrest := ih (fun q hq => hinv q (List.mem_cons_of_mem _ hq))
      rcases hinv p (List.mem_cons_self _ _) with h1 | h1
      · simp only [List.map_cons, List.filterMap_cons, h1, List.head?_cons, keysJ,
          List.map_cons]
        exact List.Sublist.cons₂ _ (by simpa [keysJ] using hrest)
      · simp only [List.map_cons, List.filterMap_cons, h1, List.head?_nil, keysJ,
          List.map_cons]
        exact List.Sublist.cons _ (by simpa [keysJ] using hrest)

/-- A pointwise-smaller option-valued function gives a sublist under
`filterMap`. -/
theorem filterMap_sub_sublist {α β : Type} (pick f : α → Option β)
    (h : ∀ x, pick x = none ∨ pick x = f x) (l : List α) :
    (l.filterMap pick).Sublist (l.filterMap f) := by
  induction l with
  | nil => simp
  | cons x rest ih =>
      rcases h x with h1 | h1
      · rw [List.filterMap_cons, h1]
        cases hf : f x with
        | none => rw [List.filterMap_cons, hf]; exact ih
        | some y => rw [List.filterMap_cons, hf]; exact List.Sublist.cons _ ih
      · rw [List.filterMap_cons, List.filterMap_cons, h1]
        cases hf : f x with
        | none => exact ih
        | some y => exact List.Sublist.cons₂ _ ih

theorem upsertJ_not_mem (m : JMap) (k : String) (j : Journal) (h : k ∉ keysJ m) :
    upsertJ m k j = m ++ [(k, j)] := by
  unfold upsertJ
  rw [if_neg]
  intro hs
  exact h ((lookupJ_isSome_iff m k).mp hs)

/-- The dict-building loop of the diamond query, with pairwise-distinct
surviving keys, is a plain filter on the input order. -/
theorem foldPick_eq_filter (pick : Journal → Option String) :
    ∀ (js : List Journal) (m : JMap),
      (js.filterMap pick).Nodup →
      (∀ j ∈ js, ∀ k, pick j = some k → k ∉ keysJ m) →
      ((js.foldl (fun m j =>
          match pick j with
          | none => m
          | some k => upsertJ m k j) m).map (fun p => p.2))
        = m.map (fun p => p.2) ++ js.filter (fun j => (pick j).isSome) := by
  intro js
  induction js with
  | nil => intro m _ _; simp
  | cons j rest ih =>
      intro m hnd hdisj
      rw [List.foldl_cons]
      cases hp : pick j with
      | none =>
          dsimp only
          have : (rest.filterMap pick).Nodup := by
            rw [List.filterMap_cons, hp] at hnd
            exact hnd
          rw [ih m this (fun q hq k hk => hdisj q (List.mem_cons_of_mem _ hq) k hk)]
          rw [List.filter_cons]
          simp [hp]
      | some k =>
          dsimp only
          have hkm : k ∉ keysJ m := hdisj j (List.mem_cons_self _ _) k hp
          have hnd2 : (rest.filterMap pick).Nodup := by
            rw [List.filterMap_cons, hp] at hnd
            exact hnd.of_cons
          have hknotrest : k ∉ rest.filterMap pick := by
            rw [List.filterMap_cons, hp] at hnd
            exact (List.nodup_cons.mp hnd).1
          have hdisj2 : ∀ q ∈ rest, ∀ k2, pick q = some k2 → k2 ∉ keysJ (m ++ [(k, j)]) := by
            intro q hq k2 hk2
            rw [keysJ_append]
            simp only [keysJ, List.map_cons, List.map_nil]
            rw [List.mem_append]
            rintro (hin | hin)
            · exact hdisj q (List.mem_cons_of_mem _ hq) k2 hk2 hin
            · rcases List.mem_singleton.mp hin with rfl
              exact hknotrest (List.mem_filterMap.mpr ⟨q, hq, hk2⟩)
          rw [upsertJ_not_mem m k j hkm, ih _ hnd2 hdisj2]
          rw [List.filter_cons]
          simp [hp]

/-! ## C3 — tri-state filters of the diamond query -/

/-- Counterexample to C3 as stated: with both `categoryIds` and
`quartiles` empty but one category in the store, the category/quartile
identifier set is not `None`: it is the union over all categories, so the
no-APC journal `J1` (classified under no category) is filtered out and
the result is empty, where the claim predicts every no-APC journal
survives. -/
theorem diamond_tristate_cex :
    getDiamond [[⟨some "j1", some "T", some "J1", none, none, none, none, none, none⟩]]
        [⟨[⟨some "C1", some "Q1"⟩], [], [(some "X", some "C1")], []⟩] [] [] [] = []
    ∧ ((engineGetAllJournals
          [[⟨some "j1", some "T", some "J1", none, none, none, none, none, none⟩]]).filter
        (fun j => !j.apc)).length = 1 := by
  exact ⟨by decide, by decide⟩

/-- The survival test applied to each no-APC journal by the diamond
query's final loop: the journal's first identifier, provided it is
non-empty and passes both resolved filter sets. -/
def diamondPick (chs : List ClassDB) (areaIds : List String) (cats1 : List Cat)
    (j : Journal) : Option String :=
  match j.ids.head? with
  | none => none
  | some jid =>
      if jid = "" then none
      else if (match (if areaIds.isEmpty then none
                      else some (unionIssnsForAreas chs areaIds) : Option (List (Option String))) with
               | none => true
               | some s => s.contains (some jid)) then
        if (match (if cats1.isEmpty then none
                   else some (unionIssnsForCats chs cats1) : Option (List (Option String))) with
            | none => true
            | some s => s.contains (some jid)) then some jid
        else none
      else none

/-- Claim C3 amended: the result starts from all journals with
`APC = false`; the area identifier set is `None` (no filter) exactly when
`areaIds` is empty, but the category/quartile identifier set is `None`
exactly when the resolved-and-narrowed category list is empty — which,
absent the two short-circuits, happens exactly when both `categoryIds`
and `quartiles` are empty AND the stores hold no categories at all; when
both are empty but categories exist the filter is active with the union
of every category's journal ids.  A journal survives if and only if its
first identifier is non-empty and belongs to every active filter set. -/
theorem diamond_tristate_amended (jhs : List (List Row)) (chs : List ClassDB)
    (areaIds categoryIds quartiles : List String) (hw : wfClass chs)
    (h1 : ¬(engineCatsWithQuartile chs quartiles = [] ∧ quartiles ≠ []))
    (h2 : ¬(categoryIds ≠ [] ∧ (engineCatsWithQuartile chs quartiles).filter
        (fun c => categoryIds.contains (c.ids.headD "")) = [])) :
    ∀ cats1 : List Cat,
      cats1 = (if categoryIds.isEmpty then engineCatsWithQuartile chs quartiles
        else (engineCatsWithQuartile chs quartiles).filter
          (fun c => categoryIds.contains (c.ids.headD ""))) →
      ((cats1 = [] ↔ quartiles = [] ∧ categoryIds = [] ∧ engineCatsWithQuartile chs [] = [])
      ∧ getDiamond jhs chs areaIds categoryIds quartiles =
          ((engineGetAllJournals jhs).filter (fun j => !j.apc)).filter (fun j =>
            match j.ids.head? with
            | none => false
            | some jid =>
                !(jid == "")
                && (areaIds.isEmpty
                    || (unionIssnsForAreas chs areaIds).contains (some jid))
                && (cats1.isEmpty
                    || (unionIssnsForCats chs cats1).contains (some jid)))) := by
  intro cats1 hdef
  have hall : allCatsHaveIds (engineCatsWithQuartile chs quartiles) = true :=
    engineCats_ids_nonempty chs quartiles hw
  constructor
  · constructor
    · intro hc1
      have hcide : categoryIds = [] := by
        by_contra hcne
        refine h2 ⟨hcne, ?_⟩
        rw [hdef] at hc1
        rw [if_neg (by simpa [List.isEmpty_iff] using hcne)] at hc1
        exact hc1
      have hc0 : engineCatsWithQuartile chs quartiles = [] := by
        rw [hdef, if_pos (by simp [hcide])] at hc1
        exact hc1
      have hq : quartiles = [] := by
        by_contra hqne
        exact h1 ⟨hc0, hqne⟩
      exact ⟨hq, hcide, by rw [← hq]; exact hc0⟩
    · rintro ⟨hq, hcide, h0⟩
      rw [hdef, if_pos (by simp [hcide]), hq]
      exact h0
  · -- resolve the branch structure of getDiamond
    have hinv : jmapInv (jhs.foldl (fun m tbl => collectJournals (getAllJournalsH tbl) m) []) := by
      have h0 := handlerFold_inv (jhs.map getAllJournalsH) [] ⟨List.nodup_nil, by simp⟩
      rwa [List.foldl_map] at h0
    have hc1' : ¬((engineCatsWithQuartile chs quartiles).isEmpty = true
        ∧ ¬(quartiles.isEmpty = true)) := by
      rintro ⟨ha, hb⟩
      exact h1 ⟨List.isEmpty_iff.mp ha, fun he => hb (by simp [he])⟩
    have hc2' : ¬(¬(categoryIds.isEmpty = true)
        ∧ ¬(allCatsHaveIds (engineCatsWithQuartile chs quartiles) = true)) := by
      rintro ⟨-, hb⟩
      exact hb hall
    have hc3' : ¬(¬(categoryIds.isEmpty = true) ∧ cats1.isEmpty = true) := by
      rintro ⟨ha, hb⟩
      refine h2 ⟨fun he => ha (by simp [he]), ?_⟩
      rw [hdef, if_neg ha] at hb
      exact List.isEmpty_iff.mp hb
    have hall1 : allCatsHaveIds cats1 = true := by
      rw [hdef]
      split
      · exact hall
      · exact allCatsHaveIds_filter _ _ hall
    have hc4' : ¬(¬(cats1.isEmpty = true) ∧ ¬(chs.isEmpty = true)
        ∧ ¬(allCatsHaveIds cats1 = true)) := by
      rintro ⟨-, -, hb⟩
      exact hb hall1
    simp only [getDiamond]
    rw [if_neg hc1', if_neg hc2', ← hdef, if_neg hc3', if_neg hc4']
    -- rewrite the loop body through the survival test
    have hbody : (fun (m : JMap) (j : Journal) =>
        match j.ids.head? with
        | none => m
        | some jid =>
            if jid = "" then m
            else if (match (if areaIds.isEmpty then none
                            else some (unionIssnsForAreas chs areaIds) :
                       Option (List (Option String))) with
                     | none => true
                     | some s => s.contains (some jid)) then
              if (match (if cats1.isEmpty then none
                         else some (unionIssnsForCats chs cats1) :
                    Option (List (Option String))) with
                  | none => true
                  | some s => s.contains (some jid)) then upsertJ m jid j
              else m
            else m)
        = (fun m j => match diamondPick chs areaIds cats1 j with
            | none => m
            | some k => upsertJ m k j) := by
      funext m j
      unfold diamondPick
      cases j.ids.head? with
      | none => rfl
      | some jid =>
          dsimp only
          by_cases hz : jid = ""
          · simp [hz]
          · rw [if_neg hz, if_neg hz]
            by_cases hae : areaIds.isEmpty = true
            · by_cases hce : cats1.isEmpty = true
              · simp [hae, hce]
              · by_cases hcm : some jid ∈ unionIssnsForCats chs cats1
                · simp [hae, hce, hcm]
                · simp [hae, hce, hcm]
            · by_cases ham : some jid ∈ unionIssnsForAreas chs areaIds
              · by_cases hce : cats1.isEmpty = true
                · simp [hae, ham, hce]
                · by_cases hcm : some jid ∈ unionIssnsForCats chs cats1
                  · simp [hae, ham, hce, hcm]
                  · simp [hae, ham, hce, hcm]
              · simp [hae, ham]
    rw [hbody]
    -- the surviving first identifiers are pairwise distinct
    have hsub1 : ∀ x, diamondPick chs areaIds cats1 x = none
        ∨ diamondPick chs areaIds cats1 x = x.ids.head? := by
      intro x
      unfold diamondPick
      cases x.ids.head? with
      | none => left; rfl
      | some jid =>
          dsimp only
          by_cases hz : jid = ""
          · left; simp [hz]
          · rw [if_neg hz]
            by_cases hae : areaIds.isEmpty = true
            · by_cases hce : cats1.isEmpty = true
              · right; simp [hae, hce]
              · by_cases hcm : some jid ∈ unionIssnsForCats chs cats1
                · right; simp [hae, hce, hcm]
                · left; simp [hae, hce, hcm]
            · by_cases ham : some jid ∈ unionIssnsForAreas chs areaIds
              · by_cases hce : cats1.isEmpty = true
                · right; simp [hae, ham, hce]
                · by_cases hcm : some jid ∈ unionIssnsForCats chs cats1
                  · right; simp [hae, ham, hce, hcm]
                  · left; simp [hae, ham, hce, hcm]
              · left; simp [hae, ham]
    have hnd : (((( (engineGetAllJournals jhs)).filter (fun j => !j.apc)).filterMap
        (diamondPick chs areaIds cats1))).Nodup := by
      have s1 := filterMap_sub_sublist (diamondPick chs areaIds cats1)
        (fun j => j.ids.head?) hsub1 ((engineGetAllJournals jhs).filter (fun j => !j.apc))
      have s2 : (((engineGetAllJournals jhs).filter (fun j => !j.apc)).filterMap
          (fun j => j.ids.head?)).Sublist
          ((engineGetAllJournals jhs).filterMap (fun j => j.ids.head?)) :=
        (List.filter_sublist _).filterMap _
      have s3 := values_filterMap_head_sublist
        (jhs.foldl (fun m tbl => collectJournals (getAllJournalsH tbl) m) []) hinv.2
      have s4 : ((engineGetAllJournals jhs).filterMap (fun j => j.ids.head?)).Sublist
          (keysJ (jhs.foldl (fun m tbl => collectJournals (getAllJournalsH tbl) m) [])) := s3
      exact (hinv.1.sublist s4).sublist (s1.trans s2)
    rw [foldPick_eq_filter (diamondPick chs areaIds cats1) _ [] hnd (by simp [keysJ])]
    rw [List.map_nil, List.nil_append]
    -- identify the survival boolean with the claim's membership condition
    apply List.filter_congr
    intro j hj
    unfold diamondPick
    cases j.ids.head? with
    | none => rfl
    | some jid =>
        dsimp only
        by_cases hz : jid = ""
        · simp [hz]
        · rw [if_neg hz]
          have hzb : (jid == "") = false := by
            simpa using hz
          by_cases hae : areaIds.isEmpty = true
          · by_cases hce : cats1.isEmpty = true
            · simp [hae, hce, hzb]
            · by_cases hcm : some jid ∈ unionIssnsForCats chs cats1
              · simp [hae, hce, hcm, hzb]
              · simp [hae, hce, hcm, hzb]
          · by_cases ham : some jid ∈ unionIssnsForAreas chs areaIds
            · by_cases hce : cats1.isEmpty = true
              · simp [hae, ham, hce, hzb]
              · by_cases hcm : some jid ∈ unionIssnsForCats chs cats1
                · simp [hae, ham, hce, hcm, hzb]
                · simp [hae, ham, hce, hcm, hzb]
            · simp [hae, ham, hzb]

/-- Witness for C3 at a concrete store (one category, one classified
no-APC journal, all filters empty). -/
theorem diamond_tristate_amended_witness :
    getDiamond [[⟨some "j1", some "T", some "J1", none, none, none, none, none, none⟩]]
        [⟨[⟨some "C1", some "Q1"⟩], [], [(some "J1", some "C1")], []⟩] [] [] []
      = [⟨["J1"], "T", [], none, false, "", false⟩] := by
  have h := (diamond_tristate_amended
      [[⟨some "j1", some "T", some "J1", none, none, none, none, none, none⟩]]
      [⟨[⟨some "C1", some "Q1"⟩], [], [(some "J1", some "C1")], []⟩] [] [] []
      (by decide) (by decide) (by decide)
      (engineCatsWithQuartile [⟨[⟨some "C1", some "Q1"⟩], [], [(some "J1", some "C1")], []⟩] [])
      (by decide)).2
  rw [h]
  decide

/-! ## C6 — chunked batched fetch

The comparison needs identifier columns in normal form (already stripped
and non-empty when present), since the merge key strips values while the
store matches them verbatim. -/

/-- An identifier cell in normal form: absent, or non-empty and equal to
its own strip. -/
def normOpt (v : Option String) : Prop :=
  match v with
  | none => True
  | some s => pyStrip s = s ∧ s ≠ ""

instance (v : Option String) : Decidable (normOpt v) := by
  unfold normOpt
  cases v <;> infer_instance

/-- A journal row whose issn and eissn cells are in normal form. -/
def normRow (r : Row) : Prop := normOpt r.issn ∧ normOpt r.eissn

instance (r : Row) : Decidable (normRow r) := by
  unfold normRow
  infer_instance

/-- The request-matching key of a row: `COALESCE(?issn, ?eissn)`, or `""`
when both are unbound. -/
def keyF (r : Row) : String := (anyId r).getD ""

/-- For a normal-form row that the identifier query matched, the merge
key is the match key, independently of the row's DataFrame index. -/
theorem getJournalKey_of_norm (r : Row) (hn : normRow r) (s : String)
    (hany : anyId r = some s) (i : Nat) : getJournalKey r i = s := by
  unfold anyId at hany
  cases hi : r.issn with
  | some x =>
      rw [hi] at hany
      simp only [Option.orElse] at hany
      have hx : pyStrip x = x ∧ x ≠ "" := by
        have := hn.1
        rw [hi] at this
        exact this
      have hv : hasValue r.issn = true := by
        rw [hi]
        simp only [hasValue, Bool.not_eq_true', beq_eq_false_iff_ne, ne_eq]
        rw [hx.1]
        exact hx.2
      have hxs : x = s := by injection hany
      unfold getJournalKey
      rw [if_pos hv]
      unfold strip
      rw [hi]
      dsimp only [Option.getD]
      rw [hx.1]
      exact hxs
  | none =>
      rw [hi] at hany
      simp only [Option.orElse] at hany
      have hx : pyStrip s = s ∧ s ≠ "" := by
        have := hn.2
        rw [hany] at this
        exact this
      have hvi : hasValue r.issn = false := by rw [hi]; rfl
      have hv : hasValue r.eissn = true := by
        rw [hany]
        simp only [hasValue, Bool.not_eq_true', beq_eq_false_iff_ne, ne_eq]
        rw [hx.1]
        exact hx.2
      unfold getJournalKey
      rw [if_neg (by simp [hvi]), if_pos hv]
      unfold strip
      rw [hany]
      exact hx.1

/-- Index-free variant of one collection step, keyed explicitly. -/
def collectRowK (m : JMap) (k : String) (r : Row) : JMap :=
  if k = "" then m
  else if (lookupJ m k).isSome then updateJ m k r
  else m ++ [(k, dataframeToJournal r)]

/-- Index-free collection over a row stream with a fixed key function. -/
def collectK (kf : Row → String) (df : List Row) (m : JMap) : JMap :=
  df.foldl (fun m r => collectRowK m (kf r) r) m

theorem collectRow_eq_collectRowK (m : JMap) (i : Nat) (r : Row) :
    collectRow m i r = collectRowK m (getJournalKey r i) r := rfl

/-- When every row's merge key ignores the index, `_collect_journals`
agrees with the index-free collection. -/
theorem collectJournals_eq_collectK (kf : Row → String) (df : List Row)
    (h : ∀ r ∈ df, ∀ i, getJournalKey r i = kf r) (m : JMap) :
    collectJournals df m = collectK kf df m := by
  unfold collectJournals collectK
  have haux : ∀ (l : List Row) (n : Nat) (m : JMap), (∀ r ∈ l, ∀ i, getJournalKey r i = kf r) →
      (l.enumFrom n).foldl (fun m p => collectRow m p.1 p.2) m
        = l.foldl (fun m r => collectRowK m (kf r) r) m := by
    intro l
    induction l with
    | nil => intro n m _; rfl
    | cons r rest ih =>
        intro n m hl
        rw [List.enumFrom_cons, List.foldl_cons, List.foldl_cons]
        rw [collectRow_eq_collectRowK, hl r (List.mem_cons_self _ _) n]
        exact ih (n + 1) _ (fun q hq i => hl q (List.mem_cons_of_mem _ hq) i)
  exact haux df 0 m h

theorem collectK_append (kf : Row → String) (A B : List Row) (m : JMap) :
    collectK kf (A ++ B) m = collectK kf B (collectK kf A m) := by
  unfold collectK
  rw [List.foldl_append]

/-- Collapse a fold of per-table collections into one collection over the
concatenated stream. -/
theorem foldl_step_to_collectK {α : Type} (kf : Row → String) (stepFn : JMap → α → JMap)
    (F : α → List Row) :
    ∀ (xs : List α), (∀ x ∈ xs, ∀ m, stepFn m x = collectK kf (F x) m) →
    ∀ m, xs.foldl stepFn m = collectK kf ((xs.map F).flatten) m := by
  intro xs
  induction xs with
  | nil => intro _ m; rfl
  | cons x rest ih =>
      intro hstep m
      rw [List.foldl_cons, List.map_cons, List.flatten_cons, collectK_append]
      rw [hstep x (List.mem_cons_self _ _) m]
      exact ih (fun t ht m2 => hstep t (List.mem_cons_of_mem _ ht) m2) _

/-- Merging a per-key row subsequence into an optional existing journal. -/
def mergeRows (o : Option Journal) (rs : List Row) : Option Journal :=
  rs.foldl (fun o r =>
    match o with
    | some j => some (updateJournalFromRow j r)
    | none => some (dataframeToJournal r)) o

/-- The collected value under a key is determined by the initial value
and the subsequence of rows carrying that key. -/
theorem lookupJ_collectK (kf : Row → String) (df : List Row)
    (hne : ∀ r ∈ df, kf r ≠ "") :
    ∀ (m : JMap) (k : String),
      lookupJ (collectK kf df m) k = mergeRows (lookupJ m k) (df.filter (fun r => kf r == k)) := by
  induction df with
  | nil => intro m k; rfl
  | cons r rest ih =>
      intro m k
      have hr : kf r ≠ "" := hne r (List.mem_cons_self _ _)
      have hrest := ih (fun q hq => hne q (List.mem_cons_of_mem _ hq))
      unfold collectK at *
      rw [List.foldl_cons, List.filter_cons]
      by_cases hk : (kf r == k) = true
      · have hkk : kf r = k := by simpa using hk
        rw [if_pos hk, hrest]
        have hstep : lookupJ (collectRowK m (kf r) r) k =
            (match lookupJ m k with
             | some j => some (updateJournalFromRow j r)
             | none => some (dataframeToJournal r)) := by
          unfold collectRowK
          rw [if_neg hr, hkk]
          by_cases hs : (lookupJ m k).isSome = true
          · rw [if_pos hs]
            obtain ⟨j, hj⟩ := Option.isSome_iff_exists.mp hs
            rw [lookupJ_updateJ_self, hj]
            rfl
          · rw [if_neg hs]
            have hnone : lookupJ m k = none := by
              cases hl : lookupJ m k
              · rfl
              · rw [hl] at hs; simp at hs
            rw [lookupJ_append, hnone]
            simp [lookupJ_cons]
        rw [hstep]
        cases lookupJ m k <;> rfl
      · have hkk : kf r ≠ k := by simpa using hk
        rw [if_neg hk, hrest]
        have hstep : lookupJ (collectRowK m (kf r) r) k = lookupJ m k := by
          unfold collectRowK
          rw [if_neg hr]
          by_cases hs : (lookupJ m (kf r)).isSome = true
          · rw [if_pos hs]
            exact lookupJ_updateJ_ne m (kf r) k r (fun e => hkk e.symm)
          · rw [if_neg hs]
            rw [lookupJ_append]
            have : lookupJ [(kf r, dataframeToJournal r)] k = none := by
              rw [lookupJ_cons, if_neg hkk]
              rfl
            rw [this]
            cases lookupJ m k <;> rfl
        rw [hstep]

/-- Key membership after an index-free collection. -/
theorem mem_keysJ_collectK (kf : Row → String) (df : List Row)
    (hne : ∀ r ∈ df, kf r ≠ "") :
    ∀ (m : JMap) (k : String),
      (k ∈ keysJ (collectK kf df m) ↔ k ∈ keysJ m ∨ ∃ r ∈ df, kf r = k) := by
  induction df with
  | nil => intro m k; simp [collectK]
  | cons r rest ih =>
      intro m k
      have hr : kf r ≠ "" := hne r (List.mem_cons_self _ _)
      have hrest := ih (fun q hq => hne q (List.mem_cons_of_mem _ hq))
      unfold collectK at *
      rw [List.foldl_cons, hrest]
      have hkeys : k ∈ keysJ (collectRowK m (kf r) r) ↔ k ∈ keysJ m ∨ kf r = k := by
        unfold collectRowK
        rw [if_neg hr]
        by_cases hs : (lookupJ m (kf r)).isSome = true
        · rw [if_pos hs]
          rw [keysJ_updateJ]
          constructor
          · exact Or.inl
          · rintro (h | rfl)
            · exact h
            · exact (lookupJ_isSome_iff m (kf r)).mp hs
        · rw [if_neg hs]
          rw [keysJ_append]
          simp only [keysJ, List.map_cons, List.map_nil, List.mem_append, List.mem_singleton]
          constructor
          · rintro (h | h)
            · exact Or.inl h
            · exact Or.inr h.symm
          · rintro (h | h)
            · exact Or.inl h
            · exact Or.inr h.symm
      rw [hkeys]
      constructor
      · rintro ((h | h) | ⟨q, hq, hk⟩)
        · exact Or.inl h
        · exact Or.inr ⟨r, List.mem_cons_self _ _, h⟩
        · exact Or.inr ⟨q, List.mem_cons_of_mem _ hq, hk⟩
      · rintro (h | ⟨q, hq, hk⟩)
        · exact Or.inl (Or.inl h)
        · rcases List.mem_cons.mp hq with rfl | hq2
          · exact Or.inl (Or.inr hk)
          · exact Or.inr ⟨q, hq2, hk⟩

/-- Index-free collection keeps the key list duplicate-free. -/
theorem keysJ_nodup_collectK (kf : Row → String) (df : List Row) :
    ∀ m : JMap, (keysJ m).Nodup → (keysJ (collectK kf df m)).Nodup := by
  induction df with
  | nil => intro m h; exact h
  | cons r rest ih =>
      intro m h
      unfold collectK at *
      rw [List.foldl_cons]
      refine ih _ ?_
      unfold collectRowK
      split
      · exact h
      · split
        · rw [keysJ_updateJ]; exact h
        · rename_i hguard hs
          rw [keysJ_append]
          simp only [keysJ, List.map_cons, List.map_nil]
          rw [List.nodup_append]
          refine ⟨h, List.nodup_singleton _, ?_⟩
          intro a ha hb
          rcases List.mem_singleton.mp hb with rfl
          have : lookupJ m (kf r) = none := by
            cases hl : lookupJ m (kf r)
            · rfl
            · rw [hl] at hs; simp at hs
          exact absurd ha ((lookupJ_eq_none_iff m (kf r)).mp this)

/-- With duplicate-free keys, membership is lookup. -/
theorem mem_iff_lookupJ (m : JMap) (h : (keysJ m).Nodup) (k : String) (v : Journal) :
    (k, v) ∈ m ↔ lookupJ m k = some v := by
  induction m with
  | nil => simp [lookupJ_nil]
  | cons p rest ih =>
      have htail : (keysJ rest).Nodup := by
        simp only [keysJ, List.map_cons, List.nodup_cons] at h
        exact h.2
      have hhead : p.1 ∉ keysJ rest := by
        simp only [keysJ, List.map_cons, List.nodup_cons] at h
        exact h.1
      rw [lookupJ_cons, List.mem_cons]
      by_cases hp : p.1 = k
      · rw [if_pos hp]
        constructor
        · rintro (rfl | hmem)
          · rfl
          · exfalso
            apply hhead
            rw [← hp] at hmem
            exact List.mem_map.mpr ⟨(p.1, v), hmem, rfl⟩
        · intro hv
          left
          have : p.2 = v := by injection hv
          rw [← this, ← hp]
      · rw [if_neg hp]
        rw [← ih htail]
        constructor
        · rintro (rfl | hmem)
          · exact absurd rfl hp
          · exact hmem
        · exact fun hmem => Or.inr hmem

/-- Two maps with duplicate-free keys and identical lookups are
permutations of one another. -/
theorem assoc_perm_of_lookup_eq (m1 m2 : JMap) (h1 : (keysJ m1).Nodup)
    (h2 : (keysJ m2).Nodup) (hl : ∀ k, lookupJ m1 k = lookupJ m2 k) : m1.Perm m2 := by
  have hn1 : m1.Nodup := List.Nodup.of_map _ h1
  have hn2 : m2.Nodup := List.Nodup.of_map _ h2
  rw [List.perm_ext_iff_of_nodup hn1 hn2]
  intro ⟨k, v⟩
  rw [mem_iff_lookupJ m1 h1 k v, mem_iff_lookupJ m2 h2 k v, hl k]

/-! ### Stability of `ORDER BY ?title` under filtering -/

theorem rowLe_trans : ∀ a b c : Row, rowLe a b → rowLe b c → rowLe a c := by
  intro a b c hab hbc
  unfold rowLe titleLe at *
  cases ha : a.title with
  | none => rfl
  | some x =>
      rw [ha] at hab
      cases hb : b.title with
      | none => rw [hb] at hab; exact absurd hab (by simp)
      | some y =>
          rw [hb] at hab
          rw [hb] at hbc
          cases hc : c.title with
          | none => rw [hc] at hbc; exact absurd hbc (by simp)
          | some z =>
              rw [hc] at hbc
              exact charListLe_trans _ _ _ hab hbc

theorem rowLe_total : ∀ a b : Row, rowLe a b ∨ rowLe b a := by
  intro a b
  unfold rowLe titleLe
  cases ha : a.title with
  | none => left; rfl
  | some x =>
      cases hb : b.title with
      | none => right; rfl
      | some y =>
          rcases charListLe_total x.data y.data with h | h
          · left; exact h
          · right; exact h

instance : IsTrans Row rowLe := ⟨rowLe_trans⟩

instance : IsTotal Row rowLe := ⟨rowLe_total⟩

/-- Inserting an element below everything prepends it. -/
theorem orderedInsert_of_forall_le (a : Row) (l : List Row)
    (h : ∀ y ∈ l, rowLe a y) : List.orderedInsert rowLe a l = a :: l := by
  cases l with
  | nil => rfl
  | cons y ys =>
      unfold List.orderedInsert
      rw [if_pos (h y (List.mem_cons_self _ _))]

/-- Filtering commutes with ordered insertion into a sorted list. -/
theorem filter_orderedInsert (p : Row → Bool) (a : Row) :
    ∀ l : List Row, l.Sorted rowLe →
      (List.orderedInsert rowLe a l).filter p =
        if p a then List.orderedInsert rowLe a (l.filter p) else l.filter p := by
  intro l
  induction l with
  | nil =>
      intro _
      by_cases hp : p a = true <;> simp [List.orderedInsert, hp]
  | cons x xs ih =>
      intro hsort
      have hxall : ∀ y ∈ xs, rowLe x y := (List.sorted_cons.mp hsort).1
      have htail : xs.Sorted rowLe := (List.sorted_cons.mp hsort).2
      by_cases hax : rowLe a x
      · rw [List.orderedInsert, if_pos hax]
        by_cases hp : p a = true
        · have hall : ∀ y ∈ (x :: xs).filter p, rowLe a y := by
            intro y hy
            rcases List.mem_cons.mp (List.mem_of_mem_filter hy) with rfl | hy2
            · exact hax
            · exact rowLe_trans a x y hax (hxall y hy2)
          rw [List.filter_cons, if_pos hp, if_pos hp, orderedInsert_of_forall_le a _ hall]
        · rw [List.filter_cons, if_neg hp, if_neg hp]
      · rw [List.orderedInsert, if_neg hax]
        have hih := ih htail
        by_cases hp : p a = true
        · rw [if_pos hp] at hih
          rw [if_pos hp]
          by_cases hpx : p x = true
          · rw [List.filter_cons, if_pos hpx, List.filter_cons, if_pos hpx]
            rw [List.orderedInsert, if_neg hax, hih]
          · rw [List.filter_cons, if_neg hpx, List.filter_cons, if_neg hpx, hih]
        · rw [if_neg hp] at hih
          rw [if_neg hp]
          by_cases hpx : p x = true
          · rw [List.filter_cons, if_pos hpx, List.filter_cons, if_pos hpx, hih]
          · rw [List.filter_cons, if_neg hpx, List.filter_cons, if_neg hpx, hih]

/-- Filtering commutes with the stable title sort. -/
theorem filter_insertionSort (p : Row → Bool) (l : List Row) :
    (List.insertionSort rowLe l).filter p = List.insertionSort rowLe (l.filter p) := by
  induction l with
  | nil => rfl
  | cons a l ih =>
      rw [List.insertionSort]
      rw [filter_orderedInsert p a _ (List.sorted_insertionSort rowLe l)]
      rw [List.filter_cons]
      by_cases hp : p a = true
      · rw [if_pos hp, if_pos hp, List.insertionSort, ih]
      · rw [if_neg hp, if_neg hp, ih]

/-! ### Chunking facts -/

theorem chunkedAux_flatten (size : Nat) :
    ∀ (l batch : List String), (chunkedAux size batch l).flatten = batch ++ l := by
  intro l
  induction l with
  | nil =>
      intro batch
      unfold chunkedAux
      by_cases hb : batch.isEmpty = true
      · rw [if_pos hb]
        rw [List.isEmpty_iff.mp hb]
        rfl
      · rw [if_neg hb]
        simp
  | cons x xs ih =>
      intro batch
      unfold chunkedAux
      dsimp only
      by_cases hl : (batch ++ [x]).length = size
      · rw [if_pos hl]
        rw [List.flatten_cons, ih []]
        simp
      · rw [if_neg hl, ih (batch ++ [x])]
        simp

/-- The chunks concatenate back to the input. -/
theorem chunked_flatten (l : List String) (size : Nat) :
    (chunked l size).flatten = l := by
  unfold chunked
  rw [chunkedAux_flatten]
  rfl

/-- Every chunk respects the size bound and is non-empty. -/
theorem chunked_size (size : Nat) (hs : 0 < size) :
    ∀ (l batch : List String), batch.length < size →
      ∀ c ∈ chunkedAux size batch l, c.length ≤ size ∧ c ≠ [] := by
  intro l
  induction l with
  | nil =>
      intro batch hb c hc
      unfold chunkedAux at hc
      by_cases he : batch.isEmpty = true
      · rw [if_pos he] at hc
        cases hc
      · rw [if_neg he] at hc
        rcases List.mem_singleton.mp hc with rfl
        exact ⟨le_of_lt hb, fun e => he (by rw [e]; rfl)⟩
  | cons x xs ih =>
      intro batch hb c hc
      unfold chunkedAux at hc
      dsimp only at hc
      by_cases hl : (batch ++ [x]).length = size
      · rw [if_pos hl] at hc
        rcases List.mem_cons.mp hc with rfl | hc2
        · refine ⟨le_of_eq hl, ?_⟩
          intro e
          rw [e] at hl
          simp at hl
          exact absurd hl.symm (Nat.ne_of_gt hs)
        · exact ih [] (by simpa using hs) c hc2
      · rw [if_neg hl] at hc
        have hlen : (batch ++ [x]).length < size := by
          rw [List.length_append, List.length_singleton]
          rw [List.length_append, List.length_singleton] at hl
          omega
        exact ih (batch ++ [x]) hlen c hc

/-- The cleaned identifier list is duplicate-free. -/
theorem cleanedIds_nodup (issns : List (Option String)) : (cleanedIds issns).Nodup := by
  unfold cleanedIds
  exact (List.perm_insertionSort strLe _).nodup_iff.mpr (List.nodup_dedup _)

/-- Every cleaned identifier is non-empty. -/
theorem cleanedIds_ne_empty (issns : List (Option String)) :
    ∀ s ∈ cleanedIds issns, s ≠ "" := by
  intro s hs
  unfold cleanedIds at hs
  have h1 := (List.perm_insertionSort strLe _).subset hs
  have h2 := List.mem_dedup.mp h1
  exact of_decide_eq_true (List.mem_filter.mp h2).2

/-- Concatenating a key-indexed `if` over chunks whose concatenation is
duplicate-free yields at most one copy. -/
theorem flatten_map_ite {α : Type} (k : String) (S : List α) :
    ∀ chunks : List (List String), chunks.flatten.Nodup →
      ((chunks.map (fun c => if k ∈ c then S else [])).flatten)
        = if k ∈ chunks.flatten then S else [] := by
  intro chunks
  induction chunks with
  | nil => intro _; rfl
  | cons c rest ih =>
      intro hnd
      rw [List.flatten_cons] at hnd
      have hc : c.Nodup := (List.nodup_append.mp hnd).1
      have hrest : rest.flatten.Nodup := (List.nodup_append.mp hnd).2.1
      have hdisj : c.Disjoint rest.flatten := (List.nodup_append.mp hnd).2.2
      rw [List.map_cons, List.flatten_cons, ih hrest, List.flatten_cons]
      by_cases hk : k ∈ c
      · rw [if_pos hk]
        have hkr : k ∉ rest.flatten := fun hmem => hdisj hk hmem
        rw [if_neg hkr, if_pos (List.mem_append.mpr (Or.inl hk))]
        simp
      · rw [if_neg hk]
        by_cases hkr : k ∈ rest.flatten
        · rw [if_pos hkr, if_pos (List.mem_append.mpr (Or.inr hkr))]
          rfl
        · rw [if_neg hkr, if_neg (by
            intro hmem
            rcases List.mem_append.mp hmem with h | h
            · exact hk h
            · exact hkr h)]
          rfl

/-! ### Per-key row streams of the identifier query -/

/-- On an already-cleaned identifier list the query is a sorted filter. -/
theorem getJournalsByIssnsH_eq_of (tbl : List Row) (ids : List String)
    (hne : ∀ s ∈ ids, s ≠ "") (hnd : ids.Nodup) (hid : ids ≠ []) :
    getJournalsByIssnsH tbl ids =
      List.insertionSort rowLe
        (tbl.filter (fun r => r.title.isSome && ids.any (fun w => anyId r = some w))) := by
  unfold getJournalsByIssnsH sortByTitle
  have h1 : ids.filter (fun i => i ≠ "") = ids :=
    List.filter_eq_self.mpr (fun a ha => by simpa using hne a ha)
  rw [h1, List.dedup_eq_self.mpr hnd]
  rw [if_neg (by simpa [List.isEmpty_iff] using hid)]

/-- Rows produced by the identifier query: in the table, title bound, and
matched through `COALESCE` by one of the requested identifiers. -/
theorem mem_getJournalsByIssnsH (tbl : List Row) (ids : List String)
    (hne : ∀ s ∈ ids, s ≠ "") (hnd : ids.Nodup) (hid : ids ≠ []) (r : Row)
    (h : r ∈ getJournalsByIssnsH tbl ids) :
    r ∈ tbl ∧ r.title.isSome = true ∧ ∃ w ∈ ids, anyId r = some w := by
  rw [getJournalsByIssnsH_eq_of tbl ids hne hnd hid] at h
  have h2 := (List.mem_insertionSort rowLe).mp h
  have h3 := List.mem_filter.mp h2
  have h5 : r.title.isSome = true ∧ (ids.any fun w => decide (anyId r = some w)) = true := by
    simpa using h3.2
  refine ⟨h3.1, h5.1, ?_⟩
  obtain ⟨w, hw, hww⟩ := List.any_eq_true.mp h5.2
  exact ⟨w, hw, of_decide_eq_true hww⟩

/-- The merge keys of matched rows from a normal-form table: every merge
key equals the match key, irrespective of the DataFrame index, and is a
requested (hence non-empty) identifier. -/
theorem streamRow_key (tbl : List Row) (hnorm : ∀ r ∈ tbl, normRow r)
    (ids : List String) (hne : ∀ s ∈ ids, s ≠ "") (hnd : ids.Nodup) (hid : ids ≠ [])
    (r : Row) (h : r ∈ getJournalsByIssnsH tbl ids) :
    keyF r ∈ ids ∧ keyF r ≠ "" ∧ (∀ i, getJournalKey r i = keyF r) := by
  obtain ⟨hmem, -, w, hw, hww⟩ := mem_getJournalsByIssnsH tbl ids hne hnd hid r h
  have hk : keyF r = w := by
    unfold keyF
    rw [hww]
    rfl
  refine ⟨hk ▸ hw, hk ▸ hne w hw, ?_⟩
  intro i
  rw [hk]
  exact getJournalKey_of_norm r (hnorm r hmem) w hww i

/-- The per-key subsequence of one identifier query over a normal-form
table: all of the key's rows when the key was requested, nothing
otherwise. -/
theorem filterK_getJournalsByIssnsH (tbl : List Row)
    (ids : List String) (hne : ∀ s ∈ ids, s ≠ "") (hnd : ids.Nodup) (hid : ids ≠ [])
    (k : String) :
    (getJournalsByIssnsH tbl ids).filter (fun r => keyF r == k)
      = if k ∈ ids then
          List.insertionSort rowLe (tbl.filter (fun r => (keyF r == k) && r.title.isSome))
        else [] := by
  rw [getJournalsByIssnsH_eq_of tbl ids hne hnd hid]
  rw [filter_insertionSort, List.filter_filter]
  by_cases hkmem : k ∈ ids
  · rw [if_pos hkmem]
    congr 1
    apply List.filter_congr
    intro r hr
    by_cases hk : (keyF r == k) = true
    · have hkk : keyF r = k := by simpa using hk
      have hany : anyId r = some k := by
        unfold keyF at hkk
        cases ha : anyId r with
        | none =>
            rw [ha] at hkk
            simp only [Option.getD_none] at hkk
            exact absurd hkk.symm (hne k hkmem)
        | some v =>
            rw [ha] at hkk
            simp only [Option.getD_some] at hkk
            rw [hkk]
      have hany2 : ids.any (fun w => anyId r = some w) = true := by
        rw [List.any_eq_true]
        exact ⟨k, hkmem, decide_eq_true hany⟩
      rw [hk, hany2]
      simp
    · have hk2 : (keyF r == k) = false := by simpa using hk
      rw [hk2]
      simp
  · rw [if_neg hkmem]
    rw [List.eq_nil_iff_forall_not_mem]
    intro r hr
    have h2 := List.mem_filter.mp ((List.mem_insertionSort rowLe).mp hr)
    have h1 : (keyF r == k) = true
        ∧ r.title.isSome = true
        ∧ (ids.any fun w => decide (anyId r = some w)) = true := by
      simpa using h2.2
    have hkk : keyF r = k := by simpa using h1.1
    obtain ⟨w, hw, hww⟩ := List.any_eq_true.mp h1.2.2
    have hww2 : anyId r = some w := of_decide_eq_true hww
    have hkw : keyF r = w := by
      unfold keyF
      rw [hww2]
      rfl
    rw [hkk] at hkw
    rw [hkw] at hkmem
    exact hkmem hw

/-! ### The chunked/unchunked comparison -/

/-- Keys of rows produced by an identifier query over a normal-form
table are index-free and non-empty. -/
theorem streamRow_facts (tbl : List Row) (hnorm : ∀ r ∈ tbl, normRow r)
    (ids : List String) (hne : ∀ s ∈ ids, s ≠ "") (hnd : ids.Nodup) (hid : ids ≠ []) :
    (∀ m, collectJournals (getJournalsByIssnsH tbl ids) m
      = collectK keyF (getJournalsByIssnsH tbl ids) m)
    ∧ (∀ r ∈ getJournalsByIssnsH tbl ids, keyF r ≠ "") := by
  constructor
  · intro m
    apply collectJournals_eq_collectK
    intro r hr i
    exact (streamRow_key tbl hnorm ids hne hnd hid r hr).2.2 i
  · intro r hr
    exact (streamRow_key tbl hnorm ids hne hnd hid r hr).2.1

/-- Claim C6 amended: the batched fetch splits the cleaned identifier
list into chunks of at most 50 whose concatenation is exactly that list,
and over normal-form journal tables its merged result contains exactly
the same journals as the single unchunked call — the returned list is a
permutation of the unchunked one (no journal dropped or duplicated, each
merged identically); only the order of the returned list may differ. -/
theorem chunked_fetch_equivalent (jhs : List (List Row)) (issns : List (Option String))
    (hnorm : ∀ tbl ∈ jhs, ∀ r ∈ tbl, normRow r) :
    (∀ c ∈ chunked (cleanedIds issns) 50, c.length ≤ 50 ∧ c ≠ [])
    ∧ (chunked (cleanedIds issns) 50).flatten = cleanedIds issns
    ∧ (fetchJournalsByIssns jhs issns).Perm (fetchJournalsByIssnsUnchunked jhs issns) := by
  have hne : ∀ s ∈ cleanedIds issns, s ≠ "" := cleanedIds_ne_empty issns
  have hnd : (cleanedIds issns).Nodup := cleanedIds_nodup issns
  have hflat : (chunked (cleanedIds issns) 50).flatten = cleanedIds issns :=
    chunked_flatten _ _
  have hchunk : ∀ c ∈ chunked (cleanedIds issns) 50, c.length ≤ 50 ∧ c ≠ [] := by
    intro c hc
    unfold chunked at hc
    exact chunked_size 50 (by omega) _ [] (by simp) c hc
  refine ⟨hchunk, hflat, ?_⟩
  unfold fetchJournalsByIssns fetchJournalsByIssnsUnchunked
  by_cases hcl : (cleanedIds issns).isEmpty = true
  · rw [if_pos hcl, if_pos hcl]
  · rw [if_neg hcl, if_neg hcl]
    have hclne : cleanedIds issns ≠ [] := by simpa [List.isEmpty_iff] using hcl
    -- facts about each chunk
    have hcfacts : ∀ c ∈ chunked (cleanedIds issns) 50,
        (∀ s ∈ c, s ≠ "") ∧ c.Nodup ∧ c ≠ [] := by
      intro c hc
      have hsub : c.Sublist (chunked (cleanedIds issns) 50).flatten :=
        List.sublist_flatten_of_mem hc
      refine ⟨?_, ?_, (hchunk c hc).2⟩
      · intro s hs
        exact hne s (hflat ▸ hsub.subset hs)
      · exact (hflat ▸ hnd).sublist hsub
    -- both folds as index-free collections over concatenated streams
    have hchunkfold : (jhs.foldl (fun m tbl =>
          (chunked (cleanedIds issns) 50).foldl
            (fun m c => collectJournals (getJournalsByIssnsH tbl c) m) m) [])
        = collectK keyF ((jhs.map (fun tbl =>
            (((chunked (cleanedIds issns) 50).map
              (fun c => getJournalsByIssnsH tbl c)).flatten))).flatten) [] := by
      apply foldl_step_to_collectK
      intro tbl htbl m
      apply foldl_step_to_collectK
      intro c hc m2
      exact (streamRow_facts tbl (hnorm tbl htbl) c (hcfacts c hc).1 (hcfacts c hc).2.1
        (hcfacts c hc).2.2).1 m2
    have hunfold : (jhs.foldl (fun m tbl =>
          collectJournals (getJournalsByIssnsH tbl (cleanedIds issns)) m) [])
        = collectK keyF ((jhs.map
            (fun tbl => getJournalsByIssnsH tbl (cleanedIds issns))).flatten) [] := by
      apply foldl_step_to_collectK
      intro tbl htbl m
      exact (streamRow_facts tbl (hnorm tbl htbl) (cleanedIds issns) hne hnd hclne).1 m
    rw [hchunkfold, hunfold]
    -- non-empty keys on both streams
    have hneL1 : ∀ r ∈ (jhs.map (fun tbl =>
        (((chunked (cleanedIds issns) 50).map
          (fun c => getJournalsByIssnsH tbl c)).flatten))).flatten, keyF r ≠ "" := by
      intro r hr
      obtain ⟨l, hl, hrl⟩ := List.mem_flatten.mp hr
      obtain ⟨tbl, htbl, rfl⟩ := List.mem_map.mp hl
      obtain ⟨l2, hl2, hrl2⟩ := List.mem_flatten.mp hrl
      obtain ⟨c, hc, rfl⟩ := List.mem_map.mp hl2
      exact (streamRow_facts tbl (hnorm tbl htbl) c (hcfacts c hc).1 (hcfacts c hc).2.1
        (hcfacts c hc).2.2).2 r hrl2
    have hneL2 : ∀ r ∈ (jhs.map
        (fun tbl => getJournalsByIssnsH tbl (cleanedIds issns))).flatten, keyF r ≠ "" := by
      intro r hr
      obtain ⟨l, hl, hrl⟩ := List.mem_flatten.mp hr
      obtain ⟨tbl, htbl, rfl⟩ := List.mem_map.mp hl
      exact (streamRow_facts tbl (hnorm tbl htbl) (cleanedIds issns) hne hnd hclne).2 r hrl
    -- per-key stream equality
    have hkeyeq : ∀ k, ((jhs.map (fun tbl =>
          (((chunked (cleanedIds issns) 50).map
            (fun c => getJournalsByIssnsH tbl c)).flatten))).flatten).filter
            (fun r => keyF r == k)
        = ((jhs.map (fun tbl =>
            getJournalsByIssnsH tbl (cleanedIds issns))).flatten).filter
            (fun r => keyF r == k) := by
      intro k
      rw [List.filter_flatten, List.filter_flatten, List.map_map, List.map_map]
      congr 1
      apply List.map_congr_left
      intro tbl htbl
      show (((chunked (cleanedIds issns) 50).map
          (fun c => getJournalsByIssnsH tbl c)).flatten).filter (fun r => keyF r == k)
        = (getJournalsByIssnsH tbl (cleanedIds issns)).filter (fun r => keyF r == k)
      rw [List.filter_flatten, List.map_map]
      simp only [Function.comp_def]
      have hmapc : (chunked (cleanedIds issns) 50).map
          (fun c => (getJournalsByIssnsH tbl c).filter (fun r => keyF r == k))
        = (chunked (cleanedIds issns) 50).map (fun c =>
            if k ∈ c then
              List.insertionSort rowLe
                (tbl.filter (fun r => (keyF r == k) && r.title.isSome))
            else []) := by
        apply List.map_congr_left
        intro c hc
        exact filterK_getJournalsByIssnsH tbl c (hcfacts c hc).1 (hcfacts c hc).2.1
          (hcfacts c hc).2.2 k
      rw [hmapc, flatten_map_ite k _ _ (by rw [hflat]; exact hnd), hflat]
      rw [filterK_getJournalsByIssnsH tbl (cleanedIds issns) hne hnd hclne k]
    -- identical lookups, duplicate-free keys, hence a permutation
    have hlook : ∀ k, lookupJ (collectK keyF ((jhs.map (fun tbl =>
          (((chunked (cleanedIds issns) 50).map
            (fun c => getJournalsByIssnsH tbl c)).flatten))).flatten) []) k
        = lookupJ (collectK keyF ((jhs.map
            (fun tbl => getJournalsByIssnsH tbl (cleanedIds issns))).flatten) []) k := by
      intro k
      rw [lookupJ_collectK keyF _ hneL1, lookupJ_collectK keyF _ hneL2, hkeyeq k]
    exact (assoc_perm_of_lookup_eq _ _
      (keysJ_nodup_collectK keyF _ [] (by simp [keysJ]))
      (keysJ_nodup_collectK keyF _ [] (by simp [keysJ])) hlook).map _

/-- Counterexample to C6 as stated: with 51 requested identifiers the
chunk boundary changes the order in which journals first enter the merge
map, so the returned list is not identical to the unchunked call's list
(it is a permutation of it, as the amended claim proves). -/
theorem chunked_fetch_order_cex :
    (cleanedIds ((List.range 51).map (fun n => some ("a" ++ toString n)))).length = 51
    ∧ fetchJournalsByIssns
        [[⟨some "jB", some "A", some "a9", none, none, none, none, none, none⟩,
          ⟨some "jA", some "B", some "a0", none, none, none, none, none, none⟩]]
        ((List.range 51).map (fun n => some ("a" ++ toString n)))
      ≠ fetchJournalsByIssnsUnchunked
        [[⟨some "jB", some "A", some "a9", none, none, none, none, none, none⟩,
          ⟨some "jA", some "B", some "a0", none, none, none, none, none, none⟩]]
        ((List.range 51).map (fun n => some ("a" ++ toString n))) := by
  exact ⟨by decide, by decide⟩

/-- Witness for C6 at a concrete normal-form store. -/
theorem chunked_fetch_equivalent_witness :
    (fetchJournalsByIssns
        [[⟨some "j", some "T", some "1111", none, none, none, none, none, none⟩]]
        [some "1111"]).Perm
      (fetchJournalsByIssnsUnchunked
        [[⟨some "j", some "T", some "1111", none, none, none, none, none, none⟩]]
        [some "1111"]) :=
  (chunked_fetch_equivalent
    [[⟨some "j", some "T", some "1111", none, none, none, none, none, none⟩]]
    [some "1111"] (by decide)).2.2

end DatScience
